import Mathlib

/-!
Shallow embedding, in Lean 4, of the ingestion-and-fan-out engine of the
`re-dollars-backend` repository.

Part I models `src/services/scraperService.ts`: the normalized message shape,
the `(timestamp, external id)` comparator `byTsIdAsc`, the cursor freshness
test `isFresh`, the clamp of anomalous future timestamps, the blocklist and
freshness selection inside `scrapeOnce`, the duplicate-suppressing store
`insertMessagesBulk`, the cursor-advance step, and the transaction-scoped
unit of one cycle together with its fan-out effect.

Part II models `src/websocket/socketManager.ts`: per-connection state
(unacked-message map, pending-send queue, backpressure flag, buffered bytes),
`checkBackpressure`, `drainPendingQueue`, `sendReliable`, the retry ticker
body, the `ack` frame handler, and `recalcAndNotifyPresence`.  The repository
contains two revisions of this file; both `sendReliable` payload-stamping
variants (parse-and-restringify, and the `fastPacket` string splice) are
modelled over a JSON value type.

JavaScript machine integers that stay in safe range are modelled as `Int` or
`Nat`; the `BigInt` external ids are `Nat` (they are produced from digit-only
strings, so they are non-negative and arbitrary precision).
-/

namespace Scraper

/-- The normalized message shape produced by `normalizeMessage`
(scraperService.ts lines 64-74).  `bangumi_id` is the digits-only external id
string; `uid` is the parsed author id; `timestamp` is epoch seconds. -/
structure Message where
  bangumi_id : String
  uid : Int
  nickname : String
  avatar : String
  color : String
  timestamp : Int
  message : String
  type : String
  is_html : Bool
deriving Repr, DecidableEq

/-- `BigInt(s)` on a digits-only string: the arbitrary-precision integer the
source converts external-id strings into at every comparison site. -/
def bigIntOfDigits (s : String) : Nat :=
  s.data.foldl (fun n c => n * 10 + (c.toNat - 48)) 0

/-- The big-integer value of a message's external id, `BigInt(m.bangumi_id)`. -/
def Message.bigId (m : Message) : Nat := bigIntOfDigits m.bangumi_id

/-- The three-way comparator `byTsIdAsc` (scraperService.ts lines 76-81):
by timestamp first, then by external id compared as `BigInt`s. -/
def byTsIdAsc (a b : Message) : Int :=
  if a.timestamp ≠ b.timestamp then a.timestamp - b.timestamp
  else if a.bigId < b.bigId then -1
  else if a.bigId > b.bigId then 1
  else 0

/-- `byTsIdAsc a b ≤ 0`: the "a sorts no later than b" relation a comparator
induces under `Array.prototype.sort`. -/
def leTsId (a b : Message) : Bool := decide (byTsIdAsc a b ≤ 0)

/-- `.sort(byTsIdAsc)`: `Array.prototype.sort` is stable and totally ordered
by the comparator, so any stable sort models it; we use insertion sort. -/
def sortByTsId (l : List Message) : List Message :=
  l.insertionSort (fun a b => leTsId a b = true)

/-- The ingestion cursor (`ScraperState`, scraperService.ts lines 33-43):
last accepted timestamp, the largest external id at that timestamp, and the
tick counter used to schedule safety sweeps.  `lastIdAtTs` is a `BigInt` in
the source; it only ever holds values of digit strings or `0`, hence `Nat`. -/
structure ScraperState where
  lastTs : Int
  lastIdAtTs : Nat
  tick : Nat
deriving Repr, DecidableEq

/-- `isFresh` (scraperService.ts lines 83-87): strictly newer than the cursor
under the `(timestamp, external id)` ordering. -/
def isFresh (st : ScraperState) (m : Message) : Bool :=
  if m.timestamp > st.lastTs then true
  else if m.timestamp < st.lastTs then false
  else decide (m.bigId > st.lastIdAtTs)

/-- The clamp inside `scrapeOnce` (lines 289-291): a record of the system
author `uid = 0` whose timestamp exceeds `scanLimit = nowTs + 2` has its
timestamp rewritten to `nowTs`. -/
def clampFuture (nowTs : Int) (m : Message) : Message :=
  if m.uid = 0 ∧ m.timestamp > nowTs + 2 then { m with timestamp := nowTs } else m

/-- `safeSorted` (scrapeOnce lines 284-294): clamp anomalous future
timestamps, drop records outside `(0, nowTs + 2]`, sort by `byTsIdAsc`. -/
def safeSorted (raw : List Message) (nowTs : Int) : List Message :=
  let scanLimit := nowTs + 2
  sortByTsId ((raw.map (clampFuture nowTs)).filter
      (fun m => decide (m.timestamp > 0) && decide (m.timestamp ≤ scanLimit)))

/-- The selection of `fresh` from `safeSorted` (scrapeOnce lines 296-298):
sweep mode (`immobileCursor`) filters only by the block list; normal mode
additionally requires `isFresh`. -/
def selectFresh (immobileCursor : Bool) (isBlocked : Int → Bool)
    (st : ScraperState) (sorted : List Message) : List Message :=
  if immobileCursor then sorted.filter (fun m => !(isBlocked m.uid))
  else sorted.filter (fun m => !(isBlocked m.uid) && isFresh st m)

/-- The cursor-advance step of `scrapeOnce` (lines 407-416): outside sweep
mode, filter out system-author records whose timestamp still exceeds the
re-read clock `nowTs`, set `lastTs` to the last such record's timestamp, and
set `lastIdAtTs` by the `reduce` over all of `fresh` at that timestamp. -/
def advRecords (fresh : List Message) (nowTs : Int) : List Message :=
  fresh.filter (fun m => !((m.uid == 0) && decide (m.timestamp > nowTs)))

def advanceCursor (st : ScraperState) (fresh : List Message) (nowTs : Int)
    (immobileCursor : Bool) : ScraperState :=
  if !immobileCursor && decide (fresh.length > 0) then
    let adv := advRecords fresh nowTs
    match adv.getLast? with
    | some last =>
        let maxTs := last.timestamp
        { st with
          lastTs := maxTs,
          lastIdAtTs := fresh.foldl
            (fun mx m => if m.timestamp = maxTs ∧ m.bigId > mx then m.bigId else mx) 0 }
    | none => st
  else st

/-- The cursor-order relation the spec describes: strictly newer than the
cursor under the `(timestamp, external id)` ordering. -/
def strictlyNewer (st : ScraperState) (m : Message) : Prop :=
  st.lastTs < m.timestamp ∨ (m.timestamp = st.lastTs ∧ st.lastIdAtTs < m.bigId)

/-- A concrete message with the fields irrelevant to ordering left blank. -/
def sampleMsg (id : String) (uid : Int) (ts : Int) : Message :=
  { bangumi_id := id, uid := uid, nickname := "", avatar := "", color := "",
    timestamp := ts, message := "", type := "text", is_html := false }

/-- A concrete batch for the cursor-advance analysis: an ordinary record at
timestamp 10 and a system-author (`uid = 0`) record with the far-future
timestamp 5000 that the pipeline clamps down to the receive time 100. -/
def cexRawC3 : List Message := [sampleMsg "1" 5 10, sampleMsg "2" 0 5000]

/-- A concrete accepted batch: an ordinary record at timestamp 10 and a
clamped placeholder (its timestamp already rewritten to 100). -/
def wFreshC3 : List Message := [sampleMsg "1" 5 10, sampleMsg "2" 0 100]

/-- One row of the `messages` table, with the columns named in the INSERT of
`insertMessagesBulk` (scraperService.ts lines 255-260). -/
structure Row where
  bangumi_id : String
  uid : Int
  nickname : String
  avatar : String
  message : String
  timestamp : Int
  type : String
  reply_to_id : Option String
  color : String
deriving Repr, DecidableEq

/-- The reply-target extraction `m.message.match(quote-pattern)` inside
`insertMessagesBulk` (lines 252-253): a leading quote tag whose digits become
`reply_to_id`. -/
def extractReplyTo (s : String) : Option String :=
  if s.startsWith "[quote=" then
    let rest := s.data.drop 7
    let digits := rest.takeWhile (fun c => c.isDigit)
    if digits ≠ [] ∧ (rest.drop digits.length).take 1 = [ ']' ] then
      some (String.mk digits)
    else none
  else none

/-- The row the INSERT statement stores for one message. -/
def toRow (m : Message) : Row :=
  { bangumi_id := m.bangumi_id, uid := m.uid, nickname := m.nickname,
    avatar := m.avatar, message := m.message, timestamp := m.timestamp,
    type := m.type, reply_to_id := extractReplyTo m.message, color := m.color }

/-- `insertMessagesBulk` (scraperService.ts lines 245-268): insert each
message with `ON CONFLICT (bangumi_id) DO NOTHING RETURNING bangumi_id`,
collecting the external ids actually inserted.  The unique constraint on
`bangumi_id` makes the insert a no-op when a row with that id exists
(including rows inserted earlier in the same batch), and only ids for which
the insert returned a row enter the `inserted` set. -/
def insertMessagesBulk : List Row → List Message → List Row × List String
  | db, [] => (db, [])
  | db, m :: ms =>
    if db.any (fun r => r.bangumi_id == m.bangumi_id) then
      insertMessagesBulk db ms
    else
      let res := insertMessagesBulk (db ++ [toRow m]) ms
      (res.1, m.bangumi_id :: res.2)

/-- The number of stored rows carrying a given external id. -/
def countRows (db : List Row) (id : String) : Nat :=
  db.countP (fun r => r.bangumi_id == id)

/-- `backoffMs` (scraperService.ts line 49): `floor(5000 * 2^attempt)`,
exact on naturals for the attempt numbers that occur. -/
def backoffMs (attempt : Nat) : Nat := 5000 * 2 ^ attempt

/-- The observable schedule of one `fetchWithRetry` call: the
`AbortSignal.timeout` budget handed to each attempt, the waits slept between
attempts, and whether a response was eventually returned. -/
structure FetchTrace where
  timeouts : List Nat
  delays : List Nat
  ok : Bool
deriving Repr, DecidableEq

/-- `fetchWithRetry` (scraperService.ts lines 51-62), driven by two oracles:
`outcome r = true` when the attempt made with `r` retries remaining returns a
response (any `res.ok`, or a non-5xx failure response, which is returned
without retrying), and `false` when it throws (network error or a status
`>= 500`).  `jitter r` is the value of `Math.random() * 400` sampled before
the retry that follows attempt `r`, so the inter-attempt wait is
`300 + jitter r`.  Each attempt's timeout is `backoffMs (4 - retries + 1)`;
the initial call passes `retries = 4`. -/
def fetchWithRetry (outcome : Nat → Bool) (jitter : Nat → Nat) : Nat → FetchTrace
  | 0 =>
    if outcome 0 then
      { timeouts := [backoffMs (4 - 0 + 1)], delays := [], ok := true }
    else
      { timeouts := [backoffMs (4 - 0 + 1)], delays := [], ok := false }
  | r + 1 =>
    if outcome (r + 1) then
      { timeouts := [backoffMs (4 - (r + 1) + 1)], delays := [], ok := true }
    else
      let rest := fetchWithRetry outcome jitter r
      { timeouts := backoffMs (4 - (r + 1) + 1) :: rest.timeouts,
        delays := (300 + jitter (r + 1)) :: rest.delays,
        ok := rest.ok }

/-- Which statement of the transaction-scoped unit of `scrapeOnce`
(lines 318-424) throws, if any.  `atInsert` is a throw inside
`insertMessagesBulk`; `atEnrich` inside `MessageService.enrichMessages`
(before the assignment to `enriched` completes); `atNotify` inside the
notification inserts; `atCommit` at `client.query('COMMIT')`.  Steps that a
run never reaches cannot throw in it. -/
inductive TxFail where
  | noFail
  | atInsert
  | atEnrich
  | atNotify
  | atCommit
deriving Repr, DecidableEq

/-- The durable state a cycle touches: the committed `messages` rows and the
module-level ingestion cursor `state`. -/
structure SystemState where
  db : List Row
  cursor : ScraperState
deriving Repr, DecidableEq

/-- The observable outcome of the transactional part of one cycle: the state
afterwards and the `new_messages` fan-out events handed to the delivery
engine (each event carrying the newly-inserted external ids it broadcasts). -/
structure CycleEffect where
  state : SystemState
  broadcasts : List (List String)
deriving Repr, DecidableEq

/-- The transaction-scoped unit of `scrapeOnce` (lines 314-445) with its
surrounding control flow.  `let enriched = [] ; try { BEGIN; insert;
if inserted nonempty { enrich -> enriched; notifications }; if normal mode
{ advance in-memory cursor }; COMMIT } catch { ROLLBACK }` — and, after the
try/catch, `if (enriched.length) broadcast(new_messages, enriched)`.
A throw rolls back the database rows only: the broadcast still fires when
`enriched` was assigned before the throw, and the cursor mutation (which
precedes COMMIT) survives a COMMIT failure. -/
def runCycleTx (fail : TxFail) (s : SystemState) (fresh : List Message)
    (now2 : Int) (immobileCursor : Bool) : CycleEffect :=
  let step := insertMessagesBulk s.db fresh
  if fail = TxFail.atInsert then
    { state := s, broadcasts := [] }
  else if step.2 ≠ [] then
    if fail = TxFail.atEnrich then
      { state := s, broadcasts := [] }
    else
      let enriched := step.2
      if fail = TxFail.atNotify then
        { state := s, broadcasts := [enriched] }
      else
        let cur' := advanceCursor s.cursor fresh now2 immobileCursor
        if fail = TxFail.atCommit then
          { state := { db := s.db, cursor := cur' }, broadcasts := [enriched] }
        else
          { state := { db := step.1, cursor := cur' }, broadcasts := [enriched] }
  else
    let cur' := advanceCursor s.cursor fresh now2 immobileCursor
    if fail = TxFail.atCommit then
      { state := { db := s.db, cursor := cur' }, broadcasts := [] }
    else
      { state := { db := step.1, cursor := cur' }, broadcasts := [] }

end Scraper

namespace WS

/-! Model of the reliable-delivery and backpressure machinery of one
connection (socketManager.ts, current revision, lines 7-348 and 413-427).
`ws.send` is modelled as always succeeding and adding the payload's length to
`ws.bufferedAmount` (the try/catch around sends guards transport exceptions,
which none of the verified claims concern); between events the environment
may lower `buffered` arbitrarily, which the theorems reflect by quantifying
over the state.  The process-wide `nextMessageId` counter lives outside the
connection, so `sendReliable` receives its fresh `ackId` as an argument. -/

def BUFFER_HIGH_WATERMARK : Nat := 4 * 1024 * 1024
def BUFFER_LOW_WATERMARK : Nat := 1 * 1024 * 1024
def ACK_TIMEOUT_MS_BASE : Nat := 3000
def MAX_RETRIES : Nat := 10
def MAX_RETRY_WINDOW_MS : Nat := 60000

/-- One entry of `ws.meta.unackedMessages` (lines 27-34). -/
structure UnackedMessage where
  payloadStr : String
  nextRetry : Nat
  retries : Nat
  firstSentAt : Nat
  lastSentAt : Nat
  wasSent : Bool
deriving Repr, DecidableEq

/-- The per-connection state the delivery engine manipulates: `meta`'s
backpressure flag, pending-send queue and unacked map (a JS `Map`, i.e. an
insertion-ordered association list), plus the transport's `bufferedAmount`
and whether `readyState === OPEN`. -/
structure Conn where
  backpressure : Bool
  pendingQueue : List (Nat × String)
  unacked : List (Nat × UnackedMessage)
  buffered : Nat
  readyOpen : Bool
deriving Repr, DecidableEq

/-- `Map.get`: first (only) entry with the given key. -/
def lookupUnacked (ackId : Nat) : List (Nat × UnackedMessage) → Option UnackedMessage
  | [] => none
  | (k, e) :: rest => if k = ackId then some e else lookupUnacked ackId rest

/-- In-place mutation of the entry object held under a key (keys unchanged;
a no-op when the key is absent, as in JS where there is no object to mutate). -/
def updateUnacked (ackId : Nat) (e : UnackedMessage)
    (l : List (Nat × UnackedMessage)) : List (Nat × UnackedMessage) :=
  l.map (fun p => if p.1 = ackId then (ackId, e) else p)

/-- `Map.delete`. -/
def eraseUnacked (ackId : Nat) (l : List (Nat × UnackedMessage)) :
    List (Nat × UnackedMessage) :=
  l.filter (fun p => p.1 ≠ ackId)

/-- The flag-setting half of `checkBackpressure` (lines 109-116), the only
half reachable while the flag is off; `drainPendingQueue` calls
`checkBackpressure` only at points where the flag is off (its loop guard),
so this is the function the drain loop effectively re-checks with. -/
def setBpIfHigh (c : Conn) : Conn :=
  if BUFFER_HIGH_WATERMARK < c.buffered then { c with backpressure := true } else c

/-- The loop body of `drainPendingQueue` (lines 122-144), with the queue
length as fuel (each iteration shifts one item).  Returns the state and the
`(ackId, payload)` send attempts made, in order.  An item whose unacked
entry is gone (acked) or already sent is discarded without transmission;
after every item the watermark is re-checked. -/
def drainGo (t : Nat) : Nat → Conn → Conn × List (Nat × String)
  | 0, c => (c, [])
  | fuel + 1, c =>
    if c.backpressure then (c, [])
    else
      match c.pendingQueue with
      | [] => (c, [])
      | item :: rest =>
        let c1 := { c with pendingQueue := rest }
        match lookupUnacked item.1 c1.unacked with
        | some entry =>
          if entry.wasSent then
            drainGo t fuel (setBpIfHigh c1)
          else
            let c2 := { c1 with
              buffered := c1.buffered + item.2.length,
              unacked := updateUnacked item.1
                { entry with wasSent := true, lastSentAt := t } c1.unacked }
            let res := drainGo t fuel (setBpIfHigh c2)
            (res.1, item :: res.2)
        | none =>
          drainGo t fuel (setBpIfHigh c1)

/-- `drainPendingQueue` (lines 122-144). -/
def drainPendingQueue (t : Nat) (c : Conn) : Conn × List (Nat × String) :=
  if c.readyOpen then drainGo t c.pendingQueue.length c else (c, [])

/-- `checkBackpressure` (lines 96-117): with the flag on, dropping below the
low watermark clears it and immediately drains; otherwise the flag holds.
With the flag off, exceeding the high watermark sets it.  Returns the state,
the returned boolean, and the sends performed by a triggered drain. -/
def checkBackpressure (t : Nat) (c : Conn) : Conn × Bool × List (Nat × String) :=
  if c.backpressure then
    if c.buffered < BUFFER_LOW_WATERMARK then
      let res := drainPendingQueue t { c with backpressure := false }
      (res.1, res.1.backpressure, res.2)
    else (c, true, [])
  else if BUFFER_HIGH_WATERMARK < c.buffered then
    ({ c with backpressure := true }, true, [])
  else (c, false, [])

/-- The fresh `UnackedMessage` recorded by `sendReliable` (lines 180-188). -/
def newEntry (t : Nat) (payloadStr : String) : UnackedMessage :=
  { payloadStr := payloadStr, nextRetry := t + ACK_TIMEOUT_MS_BASE, retries := 0,
    firstSentAt := t, lastSentAt := t, wasSent := false }

/-- `sendReliable` (lines 162-208) after the payload has been stamped with
its fresh `ackId`: record the unacked entry, then either queue (when
backpressured) or transmit. -/
def sendReliable (t : Nat) (ackId : Nat) (payloadStr : String) (c : Conn) :
    Conn × List (Nat × String) :=
  if !c.readyOpen then (c, [])
  else
    let c1 := { c with unacked := c.unacked ++ [(ackId, newEntry t payloadStr)] }
    let chk := checkBackpressure t c1
    if chk.2.1 then
      ({ chk.1 with pendingQueue := chk.1.pendingQueue ++ [(ackId, payloadStr)] },
        chk.2.2)
    else
      let c2 := { chk.1 with
        buffered := chk.1.buffered + payloadStr.length,
        unacked := updateUnacked ackId
          { newEntry t payloadStr with wasSent := true, lastSentAt := t } chk.1.unacked }
      (c2, chk.2.2 ++ [(ackId, payloadStr)])

/-- `Math.min(ACK_TIMEOUT_MS_BASE * 1.5^retries, 8000)` (line 326);
`1.5^r = 3^r / 2^r`, exact in the uncapped range. -/
def backoffRetry (r : Nat) : Nat := min (ACK_TIMEOUT_MS_BASE * 3 ^ r / 2 ^ r) 8000

/-- The `for (const [ackId, entry] of unackedMessages)` loop of the retry
ticker (lines 305-346), iterating over a snapshot of the entries and
re-reading each through the map (deletion only affects the entry itself):
skip never-sent entries still queued; expire entries beyond the retry
window; drop entries beyond `MAX_RETRIES`; otherwise, when due, bump the
retry counter and backoff and either transmit (no backpressure) or queue. -/
def tickEntries (t : Nat) : List (Nat × UnackedMessage) → Conn → Conn × List (Nat × String)
  | [], c => (c, [])
  | (ackId, _) :: rest, c =>
    match lookupUnacked ackId c.unacked with
    | none => tickEntries t rest c
    | some entry =>
      if !entry.wasSent && c.pendingQueue.any (fun p => p.1 == ackId) then
        tickEntries t rest c
      else if decide (MAX_RETRY_WINDOW_MS < t - entry.firstSentAt) then
        tickEntries t rest { c with unacked := eraseUnacked ackId c.unacked }
      else if decide (entry.nextRetry ≤ t) then
        if decide (MAX_RETRIES ≤ entry.retries) then
          tickEntries t rest { c with unacked := eraseUnacked ackId c.unacked }
        else
          let entry1 :=
            { entry with
              retries := entry.retries + 1,
              nextRetry := t + backoffRetry (entry.retries + 1) }
          let c1 := { c with unacked := updateUnacked ackId entry1 c.unacked }
          let chk := checkBackpressure t c1
          if !chk.2.1 then
            let c2 := { chk.1 with
              buffered := chk.1.buffered + entry1.payloadStr.length,
              unacked := updateUnacked ackId
                { entry1 with wasSent := true, lastSentAt := t } chk.1.unacked }
            let res := tickEntries t rest c2
            (res.1, chk.2.2 ++ (ackId, entry1.payloadStr) :: res.2)
          else
            let c1' := if chk.1.pendingQueue.any (fun p => p.1 == ackId) then chk.1
              else { chk.1 with pendingQueue := chk.1.pendingQueue ++ [(ackId, entry1.payloadStr)] }
            let res := tickEntries t rest c1'
            (res.1, chk.2.2 ++ res.2)
      else
        tickEntries t rest c

/-- One retry-ticker pass over one connection (lines 290-347): skip closed
transports; re-check backpressure when flagged; drain a non-empty pending
queue; then walk the unacked entries. -/
def retryTickConn (t : Nat) (c : Conn) : Conn × List (Nat × String) :=
  if !c.readyOpen then (c, [])
  else
    let s1 : Conn × List (Nat × String) :=
      if c.backpressure then
        let chk := checkBackpressure t c
        (chk.1, chk.2.2)
      else (c, [])
    let s2 : Conn × List (Nat × String) :=
      if decide (0 < s1.1.pendingQueue.length) then
        let d := drainPendingQueue t s1.1
        (d.1, s1.2 ++ d.2)
      else s1
    if s2.1.unacked.isEmpty then s2
    else
      let r := tickEntries t s2.1.unacked s2.1
      (r.1, s2.2 ++ r.2)

/-- The `ack` control-frame handler (lines 424-427): `if (ackId)
unackedMessages.delete(ackId)` — a truthy (non-zero) id removes the entry
outright. -/
def handleAck (c : Conn) (ackId : Nat) : Conn :=
  if ackId ≠ 0 then { c with unacked := eraseUnacked ackId c.unacked } else c

/-- The connection-level events that can touch a delivery after it was
acked: retry-ticker passes, pending-queue drains, and further acks.
(`sendReliable` only ever adds a fresh, larger id, so it cannot resend an
existing one.) -/
inductive WsOp where
  | tick (t : Nat)
  | drain (t : Nat)
  | ack (ackId : Nat)
deriving Repr, DecidableEq

/-- Run a sequence of events, accumulating every send attempt. -/
def runOps : List WsOp → Conn → Conn × List (Nat × String)
  | [], c => (c, [])
  | op :: ops, c =>
    let step : Conn × List (Nat × String) :=
      match op with
      | WsOp.tick t => retryTickConn t c
      | WsOp.drain t => drainPendingQueue t c
      | WsOp.ack ackId => (handleAck c ackId, [])
    let rest := runOps ops step.1
    (rest.1, step.2 ++ rest.2)

/-! Presence tracking (socketManager.ts lines 243-267). -/

/-- The slice of `ws.meta` that presence broadcasting consults: the
connection id, the client-supplied foreground flag `open`, and the presence
subscription set `subs`. -/
structure PresenceConnMeta where
  id : Nat
  openFlag : Bool
  subs : List String
deriving Repr, DecidableEq

/-- A live connection as the presence tracker sees it: its meta and whether
its transport `readyState` is OPEN. -/
structure PresenceConn where
  meta : PresenceConnMeta
  readyOpen : Bool
deriving Repr, DecidableEq

/-- A `WSUser` record (lines 18-25): the connection set holds back
references; `active` and `lastSeen` are the derived presence state. -/
structure WSUser where
  uid : String
  connections : List PresenceConn
  active : Bool
  lastSeen : Nat
deriving Repr, DecidableEq

/-- The registry state `recalcAndNotifyPresence` reads: the `users` map and
the `allClients` set. -/
structure PresenceWorld where
  users : List (String × WSUser)
  allClients : List PresenceConn
deriving Repr, DecidableEq

def lookupUser (uid : String) : List (String × WSUser) → Option WSUser
  | [] => none
  | (k, u) :: rest => if k = uid then some u else lookupUser uid rest

def updateUser (uid : String) (u : WSUser)
    (l : List (String × WSUser)) : List (String × WSUser) :=
  l.map (fun p => if p.1 = uid then (uid, u) else p)

/-- `computeActive` (lines 243-246): some connection of the user has an OPEN
transport. -/
def computeActive (u : WSUser) : Bool :=
  u.connections.any (fun c => c.readyOpen)

/-- `recalcAndNotifyPresence` (lines 248-267): derive `active`; refresh
`lastSeen` whenever active; on a transition (and only then) attempt a
`presence_update` `safeSend` to every client whose foreground flag is set
and whose subscription set contains the uid.  Returns the new world and the
ids of the connections the send was attempted to. -/
def recalcAndNotifyPresence (t : Nat) (w : PresenceWorld) (uid : String) :
    PresenceWorld × List Nat :=
  match lookupUser uid w.users with
  | none => (w, [])
  | some u =>
    let wasActive := u.active
    let isActive := computeActive u
    let u1 := { u with
      active := isActive,
      lastSeen := if isActive then t else u.lastSeen }
    let w1 := { w with users := updateUser uid u1 w.users }
    if wasActive = isActive then (w1, [])
    else
      (w1, (w.allClients.filter
          (fun c => c.meta.openFlag && c.meta.subs.contains uid)).map
        (fun c => c.meta.id))

/-- A connection subscribed to uid "1" whose foreground flag (`meta.open`)
is false: a background tab watching that user's presence. -/
def cexSubConnC9 : PresenceConn := { meta := { id := 9, openFlag := false, subs := ["1"] }, readyOpen := true }

/-- The watched user's only connection, with a closed transport. -/
def cexDeadConnC9 : PresenceConn := { meta := { id := 3, openFlag := true, subs := [] }, readyOpen := false }

/-- A world in which user "1" is recorded active but its one connection has
closed, and one background-tab client subscribes to "1". -/
def cexWorldC9 : PresenceWorld :=
  { users := [("1", { uid := "1", connections := [cexDeadConnC9], active := true, lastSeen := 0 })],
    allClients := [cexSubConnC9] }

/-- A connection holding one reliable delivery (ackId 1) that has already
been retried twice and is due for another retry — the spec's "reliable send
with 2 pending retries". -/
def cexConnC6 : Conn :=
  { backpressure := false,
    pendingQueue := [],
    unacked := [(1,
      { payloadStr := "\x7b\"type\":\"new_messages\",\"ackId\":1\x7d",
        nextRetry := 10,
        retries := 2,
        firstSentAt := 0,
        lastSentAt := 5,
        wasSent := true })],
    buffered := 0,
    readyOpen := true }

/-- A connection one byte over the high watermark, flag not yet set. -/
def wHighConnC5 : Conn :=
  { backpressure := false, pendingQueue := [], unacked := [],
    buffered := 4 * 1024 * 1024 + 1, readyOpen := true }

/-- A backpressured connection whose buffer has drained to exactly the high
watermark — still far above the low watermark. -/
def wBpConnC5 : Conn :=
  { backpressure := true, pendingQueue := [], unacked := [],
    buffered := 4 * 1024 * 1024, readyOpen := true }

/-- A foreground client subscribed to uid "1". -/
def wSubConnC9 : PresenceConn := { meta := { id := 9, openFlag := true, subs := ["1"] }, readyOpen := true }

/-- The watched user's open connection. -/
def wOpenConnC9 : PresenceConn := { meta := { id := 4, openFlag := true, subs := [] }, readyOpen := true }

/-- A world in which user "1" is recorded inactive but has an open
connection, and one foreground client subscribes to "1". -/
def wWorldC9 : PresenceWorld :=
  { users := [("1", { uid := "1", connections := [wOpenConnC9], active := false, lastSeen := 0 })],
    allClients := [wSubConnC9] }

end WS

namespace JsonWire

/-! The two payload-stamping variants of `sendReliable`.  The repository
holds two revisions of socketManager.ts: the current one parses the payload
string, sets `ackId`, and re-serializes (lines 168-175); the earlier one
splices the field into the serialized text with `fastPacket` (lines
685-688 and 764-765).  Payload strings that are canonical serializations of
an object are modelled as the serialization of a JSON value. -/

/-- A JSON value; numbers are restricted to the (safe) integers that occur
on this wire. -/
inductive Jval where
  | jnull
  | jbool (b : Bool)
  | jnum (n : Int)
  | jstr (s : String)
  | jarr (elems : List Jval)
  | jobj (fields : List (String × Jval))

/-- JS integer-to-decimal conversion (both `JSON.stringify` on an integral
number and the template literal in `fastPacket`). -/
def jsIntRepr (n : Int) : String :=
  if n < 0 then "-" ++ Nat.repr n.natAbs else Nat.repr n.natAbs

/-- The escaping `JSON.stringify` applies inside a string literal. -/
def escChar (c : Char) : String :=
  if c.toNat = 34 then "\\\""
  else if c.toNat = 92 then "\\\\"
  else if c.toNat = 10 then "\\n"
  else if c.toNat = 13 then "\\r"
  else if c.toNat = 9 then "\\t"
  else String.singleton c

def escapeJson (s : String) : String :=
  s.data.foldl (fun acc c => acc ++ escChar c) ""

mutual

/-- `JSON.stringify` over the modelled values (object fields in insertion
order, no added whitespace — the canonical serialization). -/
def stringifyVal : Jval → String
  | Jval.jnull => "null"
  | Jval.jbool true => "true"
  | Jval.jbool false => "false"
  | Jval.jnum n => jsIntRepr n
  | Jval.jstr s => "\"" ++ escapeJson s ++ "\""
  | Jval.jarr xs => "[" ++ stringifyArr xs ++ "]"
  | Jval.jobj fs => "\x7b" ++ stringifyFields fs ++ "\x7d"

def stringifyArr : List Jval → String
  | [] => ""
  | [x] => stringifyVal x
  | x :: y :: rest => stringifyVal x ++ "," ++ stringifyArr (y :: rest)

def stringifyFields : List (String × Jval) → String
  | [] => ""
  | [(k, v)] => "\"" ++ escapeJson k ++ "\":" ++ stringifyVal v
  | (k, v) :: f :: rest =>
      "\"" ++ escapeJson k ++ "\":" ++ stringifyVal v ++ "," ++
        stringifyFields (f :: rest)

end

/-- The serialization of one object field. -/
def fieldStr (f : String × Jval) : String :=
  "\"" ++ escapeJson f.1 ++ "\":" ++ stringifyVal f.2

/-- JS property assignment `parsed.ackId = ackId` on a parsed object:
overwrite in place when the key exists, append otherwise. -/
def setField (fs : List (String × Jval)) (k : String) (v : Jval) :
    List (String × Jval) :=
  if fs.any (fun p => p.1 == k) then
    fs.map (fun p => if p.1 == k then (k, v) else p)
  else fs ++ [(k, v)]

/-- The current revision's stamping (lines 168-175) on a payload string that
parses to the object `fs`: parse, assign `ackId`, re-stringify. -/
def stampParse (fs : List (String × Jval)) (ackId : Nat) : String :=
  stringifyVal (Jval.jobj (setField fs "ackId" (Jval.jnum (ackId : Int))))

/-- `fastPacket` (lines 685-688): `baseStr.slice(0, -1) + ',"ackId":' +
ackId + '\x7d'` — drop the final character, splice the field in textually. -/
def fastPacket (baseStr : String) (ackId : Nat) : String :=
  String.mk baseStr.data.dropLast ++ ",\"ackId\":" ++ jsIntRepr (ackId : Int) ++ "\x7d"

/-- The earlier revision's stamping (lines 758-767) of a string payload. -/
def stampSplice (fs : List (String × Jval)) (ackId : Nat) : String :=
  fastPacket (stringifyVal (Jval.jobj fs)) ackId

end JsonWire

namespace Scraper

theorem leTsId_iff (a b : Message) :
    leTsId a b = true ↔
      (a.timestamp < b.timestamp ∨ (a.timestamp = b.timestamp ∧ a.bigId ≤ b.bigId)) := by
  simp only [leTsId, byTsIdAsc, decide_eq_true_eq]
  split_ifs with h1 h2 h3 <;> omega

instance : IsTotal Message (fun a b => leTsId a b = true) :=
  ⟨by intro a b; rw [leTsId_iff, leTsId_iff]; omega⟩

instance : IsTrans Message (fun a b => leTsId a b = true) :=
  ⟨by intro a b c; rw [leTsId_iff, leTsId_iff, leTsId_iff]; omega⟩

theorem isFresh_iff (st : ScraperState) (m : Message) :
    isFresh st m = true ↔ strictlyNewer st m := by
  simp only [isFresh, strictlyNewer]
  split_ifs with h1 h2 <;> simp <;> omega

theorem selectFresh_false (isBlocked : Int → Bool) (st : ScraperState) (l : List Message) :
    selectFresh false isBlocked st l =
      l.filter (fun m => !(isBlocked m.uid) && isFresh st m) := rfl

theorem selectFresh_true (isBlocked : Int → Bool) (st : ScraperState) (l : List Message) :
    selectFresh true isBlocked st l = l.filter (fun m => !(isBlocked m.uid)) := rfl

end Scraper

open Scraper in
/-- C7: fetched records are sorted by `(timestamp, external id)` ascending
with external ids compared as arbitrary-precision integers: the pipeline
output is sorted under `leTsId` and is a permutation of its clamped and
range-filtered input; on timestamps `[5,5,7,3]` with external ids
`[10,11,9,99]` the sorted order is `(3,99),(5,10),(5,11),(7,9)`. -/
theorem sort_by_ts_and_bigint_id :
    (∀ (raw : List Message) (nowTs : Int),
        (safeSorted raw nowTs).Sorted (fun a b => leTsId a b = true) ∧
        (safeSorted raw nowTs).Perm
          ((raw.map (clampFuture nowTs)).filter
            (fun m => decide (m.timestamp > 0) && decide (m.timestamp ≤ nowTs + 2)))) ∧
    safeSorted
        [sampleMsg "10" 1 5, sampleMsg "11" 2 5, sampleMsg "9" 3 7, sampleMsg "99" 4 3] 1000 =
      [sampleMsg "99" 4 3, sampleMsg "10" 1 5, sampleMsg "11" 2 5, sampleMsg "9" 3 7] := by
  constructor
  · intro raw nowTs
    exact ⟨List.sorted_insertionSort _ _, List.perm_insertionSort _ _⟩
  · decide

open Scraper in
/-- C4: in normal mode a record is kept iff it is unblocked and strictly
newer than the cursor — equivalently, every record with timestamp below
`lastTs`, or at `lastTs` with external id not exceeding `lastIdAtTs`, is
discarded; in sweep mode (`immobileCursor`) the freshness filter is not
applied and only the block list is consulted. -/
theorem freshness_filter_by_mode (st : ScraperState) (m : Message)
    (isBlocked : Int → Bool) (sorted : List Message) :
    (m ∈ selectFresh false isBlocked st sorted ↔
        m ∈ sorted ∧ isBlocked m.uid = false ∧ strictlyNewer st m) ∧
    (m ∈ selectFresh true isBlocked st sorted ↔ m ∈ sorted ∧ isBlocked m.uid = false) ∧
    (isFresh st m = false ↔
        (m.timestamp < st.lastTs ∨ (m.timestamp = st.lastTs ∧ m.bigId ≤ st.lastIdAtTs))) := by
  refine ⟨?_, ?_, ?_⟩
  · rw [selectFresh_false]
    simp only [List.mem_filter, Bool.and_eq_true, Bool.not_eq_true', ← isFresh_iff]
  · rw [selectFresh_true]
    simp [List.mem_filter]
  · rw [← Bool.not_eq_true, isFresh_iff]
    simp only [strictlyNewer]
    omega

namespace Scraper

theorem timestamp_le_getLast :
    ∀ (l : List Message), l.Sorted (fun a b => leTsId a b = true) →
      ∀ (h : l ≠ []) (m : Message), m ∈ l →
        m.timestamp ≤ (l.getLast h).timestamp := by
  intro l
  induction l with
  | nil => intro _ h; exact absurd rfl h
  | cons x t ih =>
    intro hs h m hm
    cases t with
    | nil =>
      rcases List.mem_singleton.mp hm with rfl
      exact le_refl _
    | cons y t' =>
      have hne : (y :: t') ≠ [] := by simp
      rw [List.getLast_cons hne]
      rcases List.mem_cons.mp hm with rfl | hm'
      · have hrel := (List.pairwise_cons.mp hs).1 _ (List.getLast_mem hne)
        rw [leTsId_iff] at hrel
        omega
      · exact ih (List.pairwise_cons.mp hs).2 hne m hm'

theorem foldIdMax_ge (maxTs : Int) :
    ∀ (l : List Message) (a : Nat),
      a ≤ l.foldl (fun mx m => if m.timestamp = maxTs ∧ m.bigId > mx then m.bigId else mx) a := by
  intro l
  induction l with
  | nil => intro a; exact le_refl a
  | cons x t ih =>
    intro a
    simp only [List.foldl_cons]
    by_cases hx : x.timestamp = maxTs ∧ x.bigId > a
    · rw [if_pos hx]
      exact le_trans (le_of_lt hx.2) (ih _)
    · rw [if_neg hx]
      exact ih a

theorem foldIdMax_bound (maxTs : Int) :
    ∀ (l : List Message) (a : Nat) (m : Message), m ∈ l → m.timestamp = maxTs →
      m.bigId ≤ l.foldl (fun mx m => if m.timestamp = maxTs ∧ m.bigId > mx then m.bigId else mx) a := by
  intro l
  induction l with
  | nil => intro a m hm; exact absurd hm (List.not_mem_nil m)
  | cons x t ih =>
    intro a m hm hts
    rcases List.mem_cons.mp hm with rfl | hm'
    · simp only [List.foldl_cons]
      by_cases hx : m.timestamp = maxTs ∧ m.bigId > a
      · rw [if_pos hx]
        exact foldIdMax_ge maxTs t _
      · rw [if_neg hx]
        have hle : ¬ (m.bigId > a) := fun hgt => hx ⟨hts, hgt⟩
        exact le_trans (by omega) (foldIdMax_ge maxTs t a)
    · exact ih _ m hm' hts

theorem foldIdMax_attained (maxTs : Int) :
    ∀ (l : List Message) (a : Nat),
      l.foldl (fun mx m => if m.timestamp = maxTs ∧ m.bigId > mx then m.bigId else mx) a = a ∨
      ∃ m ∈ l, m.timestamp = maxTs ∧
        l.foldl (fun mx m => if m.timestamp = maxTs ∧ m.bigId > mx then m.bigId else mx) a = m.bigId := by
  intro l
  induction l with
  | nil => intro a; exact Or.inl rfl
  | cons x t ih =>
    intro a
    simp only [List.foldl_cons]
    by_cases hx : x.timestamp = maxTs ∧ x.bigId > a
    · rw [if_pos hx]
      rcases ih x.bigId with heq | ⟨m, hm, hts, heq⟩
      · exact Or.inr ⟨x, List.mem_cons_self x t, hx.1, heq⟩
      · exact Or.inr ⟨m, List.mem_cons_of_mem x hm, hts, heq⟩
    · rw [if_neg hx]
      rcases ih a with heq | ⟨m, hm, hts, heq⟩
      · exact Or.inl heq
      · exact Or.inr ⟨m, List.mem_cons_of_mem x hm, hts, heq⟩

end Scraper

open Scraper in
/-- C3 counterexample: with receive-time clock 100, the system-author record
(external id 2, timestamp 5000) is clamped to timestamp 100 — a clock-anomaly
placeholder.  The only accepted record that is not a placeholder has
timestamp 10, yet the cursor advances to `lastTs = 100` (the placeholder's
rewritten timestamp) with tie-break id 2 (the placeholder's id): the
advance-time filter `!(uid = 0 and timestamp > now)` no longer recognises a
clamped record, because its timestamp was rewritten to the past.  This
refutes the claim that the cursor advances to the maximum timestamp among
accepted records that are not clock-anomaly placeholders. -/
theorem cursor_advance_placeholder_cex :
    safeSorted cexRawC3 100 = [sampleMsg "1" 5 10, sampleMsg "2" 0 100] ∧
    selectFresh false (fun _ => false) ⟨0, 0, 0⟩ (safeSorted cexRawC3 100) =
      [sampleMsg "1" 5 10, sampleMsg "2" 0 100] ∧
    advanceCursor ⟨0, 0, 0⟩
        (selectFresh false (fun _ => false) ⟨0, 0, 0⟩ (safeSorted cexRawC3 100)) 100 false =
      { lastTs := 100, lastIdAtTs := 2, tick := 0 } := by
  refine ⟨by decide, by decide, by decide⟩

open Scraper in
/-- C3 amended: in a normal-mode cycle, among the accepted records the
cursor-advance step keeps those that are not system-author (`uid = 0`)
records with a timestamp still in the future of the advance-time clock —
clamped placeholders, whose timestamps were rewritten to receive time, are
therefore included.  If any record survives this filter, `lastTs` becomes
the last (hence, the batch being sorted, the maximum) timestamp among the
survivors, and `lastIdAtTs` becomes the largest external id among all
accepted records at that timestamp (0 if none matches, which cannot happen
here since the last survivor itself matches). -/
theorem cursor_advance_to_last_nonfuture (st : ScraperState) (fresh : List Message)
    (now2 : Int) (hsort : fresh.Sorted (fun a b => leTsId a b = true))
    (h : advRecords fresh now2 ≠ []) :
    (advanceCursor st fresh now2 false).lastTs =
        ((advRecords fresh now2).getLast h).timestamp ∧
    (∀ m ∈ advRecords fresh now2,
        m.timestamp ≤ (advanceCursor st fresh now2 false).lastTs) ∧
    (∀ m ∈ fresh, m.timestamp = (advanceCursor st fresh now2 false).lastTs →
        m.bigId ≤ (advanceCursor st fresh now2 false).lastIdAtTs) ∧
    ((advanceCursor st fresh now2 false).lastIdAtTs = 0 ∨
        ∃ m ∈ fresh, m.timestamp = (advanceCursor st fresh now2 false).lastTs ∧
          m.bigId = (advanceCursor st fresh now2 false).lastIdAtTs) ∧
    (advanceCursor st fresh now2 false).tick = st.tick := by
  have hfresh : fresh ≠ [] := by
    intro he
    exact h (by simp [advRecords, he])
  have hlen : 0 < fresh.length := List.length_pos.mpr hfresh
  have hlast : (advRecords fresh now2).getLast? =
      some ((advRecords fresh now2).getLast h) := List.getLast?_eq_getLast _ h
  have hadv : advanceCursor st fresh now2 false =
      { st with
        lastTs := ((advRecords fresh now2).getLast h).timestamp,
        lastIdAtTs := fresh.foldl
          (fun mx m =>
            if m.timestamp = ((advRecords fresh now2).getLast h).timestamp ∧ m.bigId > mx
            then m.bigId else mx) 0 } := by
    simp only [advanceCursor, Bool.not_false, Bool.true_and, decide_eq_true_eq]
    rw [if_pos hlen, hlast]
  rw [hadv]
  have hsadv : (advRecords fresh now2).Sorted (fun a b => leTsId a b = true) :=
    List.Pairwise.filter _ hsort
  refine ⟨rfl, ?_, ?_, ?_, rfl⟩
  · intro m hm
    exact timestamp_le_getLast _ hsadv h m hm
  · intro m hm hts
    exact foldIdMax_bound _ fresh 0 m hm hts
  · rcases foldIdMax_attained (((advRecords fresh now2).getLast h).timestamp) fresh 0 with
      heq | ⟨m, hm, hts, heq⟩
    · exact Or.inl heq
    · exact Or.inr ⟨m, hm, hts, heq.symm⟩

open Scraper in
/-- Witness for the amended C3 theorem: a concrete sorted accepted batch
(an ordinary record at timestamp 10 and an already-clamped placeholder at
timestamp 100) satisfies the hypotheses, and the cursor lands on the last
surviving record's timestamp. -/
theorem cursor_advance_to_last_nonfuture_witness :
    wFreshC3.Sorted (fun a b => leTsId a b = true) ∧
    advRecords wFreshC3 100 ≠ [] ∧
    (advanceCursor ⟨0, 0, 0⟩ wFreshC3 100 false).lastTs =
      ((advRecords wFreshC3 100).getLast (by decide)).timestamp ∧
    (advanceCursor ⟨0, 0, 0⟩ wFreshC3 100 false).tick = 0 := by
  have hsort : wFreshC3.Sorted (fun a b => leTsId a b = true) := by
    decide
  have hne : advRecords wFreshC3 100 ≠ [] := by decide
  have hth := cursor_advance_to_last_nonfuture ⟨0, 0, 0⟩ wFreshC3 100 hsort hne
  exact ⟨hsort, hne, hth.1, hth.2.2.2.2⟩

namespace Scraper

theorem countRows_append (db : List Row) (r : Row) (id : String) :
    countRows (db ++ [r]) id =
      countRows db id + (if r.bangumi_id == id then 1 else 0) := by
  simp [countRows, List.countP_append, List.countP_cons]

theorem present_iff_countRows_pos (db : List Row) (id : String) :
    db.any (fun r => r.bangumi_id == id) = true ↔ 0 < countRows db id := by
  simp [countRows, List.any_eq_true, List.countP_pos_iff]

theorem insertBulk_countRows_present :
    ∀ (msgs : List Message) (db : List Row) (id : String),
      db.any (fun r => r.bangumi_id == id) = true →
      countRows (insertMessagesBulk db msgs).1 id = countRows db id := by
  intro msgs
  induction msgs with
  | nil => intro db id _; rfl
  | cons m ms ih =>
    intro db id h
    by_cases hc : db.any (fun r => r.bangumi_id == m.bangumi_id) = true
    · simp only [insertMessagesBulk, if_pos hc]
      exact ih db id h
    · simp only [insertMessagesBulk, if_neg hc]
      have hmne : ¬(m.bangumi_id == id) = true := by
        intro he
        exact hc (by rw [show m.bangumi_id = id from by simpa using he]; exact h)
      have h' : (db ++ [toRow m]).any (fun r => r.bangumi_id == id) = true := by
        simp only [List.any_append, h, Bool.true_or]
      have hrow : ((toRow m).bangumi_id == id) = false := Bool.eq_false_iff.mpr hmne
      rw [ih (db ++ [toRow m]) id h', countRows_append, hrow]
      simp
  
theorem insertBulk_countRows_absent :
    ∀ (msgs : List Message) (db : List Row) (id : String),
      db.any (fun r => r.bangumi_id == id) = false →
      countRows (insertMessagesBulk db msgs).1 id =
        (if msgs.any (fun m => m.bangumi_id == id) then 1 else 0) := by
  intro msgs
  induction msgs with
  | nil =>
    intro db id h
    have : countRows db id = 0 := by
      by_contra hne
      rw [← Bool.not_eq_true] at h
      exact h (present_iff_countRows_pos db id |>.mpr (Nat.pos_of_ne_zero hne))
    simpa [insertMessagesBulk] using this
  | cons m ms ih =>
    intro db id h
    by_cases hm : m.bangumi_id = id
    · subst hm
      have hc : ¬ db.any (fun r => r.bangumi_id == m.bangumi_id) = true := by
        rw [h]; exact Bool.false_ne_true
      simp only [insertMessagesBulk, if_neg hc]
      have h' : (db ++ [toRow m]).any (fun r => r.bangumi_id == m.bangumi_id) = true := by
        have hr : (toRow m).bangumi_id = m.bangumi_id := rfl
        simp [List.any_append, List.any_cons, hr]
      rw [insertBulk_countRows_present ms (db ++ [toRow m]) m.bangumi_id h',
        countRows_append]
      have h0 : countRows db m.bangumi_id = 0 := by
        by_contra hne
        rw [← Bool.not_eq_true] at h
        exact h (present_iff_countRows_pos db _ |>.mpr (Nat.pos_of_ne_zero hne))
      have hr : (toRow m).bangumi_id = m.bangumi_id := rfl
      simp [h0, hr, List.any_cons]
    · have hhead : (m.bangumi_id == id) = false := by
        simpa using hm
      by_cases hc : db.any (fun r => r.bangumi_id == m.bangumi_id) = true
      · simp only [insertMessagesBulk, if_pos hc]
        rw [ih db id h]
        simp [List.any_cons, hhead]
      · simp only [insertMessagesBulk, if_neg hc]
        have h' : (db ++ [toRow m]).any (fun r => r.bangumi_id == id) = false := by
          simp only [List.any_append, h, Bool.false_or, List.any_cons, List.any_nil,
            Bool.or_false, toRow]
          exact hhead
        rw [ih (db ++ [toRow m]) id h']
        simp [List.any_cons, hhead]

theorem insertBulk_mem_inserted :
    ∀ (msgs : List Message) (db : List Row) (id : String),
      id ∈ (insertMessagesBulk db msgs).2 →
      db.any (fun r => r.bangumi_id == id) = false ∧
        msgs.any (fun m => m.bangumi_id == id) = true := by
  intro msgs
  induction msgs with
  | nil => intro db id hmem; exact absurd hmem (by simp [insertMessagesBulk])
  | cons m ms ih =>
    intro db id hmem
    by_cases hc : db.any (fun r => r.bangumi_id == m.bangumi_id) = true
    · simp only [insertMessagesBulk, if_pos hc] at hmem
      obtain ⟨ha, hms⟩ := ih db id hmem
      exact ⟨ha, by simp [List.any_cons, hms]⟩
    · simp only [insertMessagesBulk, if_neg hc] at hmem
      rcases List.mem_cons.mp hmem with rfl | h2
      · exact ⟨by simpa using hc, by simp [List.any_cons]⟩
      · obtain ⟨ha, hms⟩ := ih (db ++ [toRow m]) id h2
        rw [List.any_append] at ha
        exact ⟨by
          rcases Bool.or_eq_false_iff.mp ha with ⟨h1, _⟩
          exact h1, by simp [List.any_cons, hms]⟩

end Scraper

open Scraper in
/-- C2: reprocessing an external id is a no-op at the persistence layer —
after feeding a record with a given external id through `insertMessagesBulk`
twice (within one batch via `msgs1`, or across two overlapping calls), the
store holds exactly one row with that id; and the id is reported as newly
inserted by at most one of the two calls, so the fan-out driven by the
newly-inserted ids fires for it at most once. -/
theorem idempotent_ingestion_dedup (db : List Row) (msgs1 msgs2 : List Message)
    (id : String)
    (habs : db.any (fun r => r.bangumi_id == id) = false)
    (hfed : msgs1.any (fun m => m.bangumi_id == id) = true ∨
        msgs2.any (fun m => m.bangumi_id == id) = true) :
    countRows (insertMessagesBulk (insertMessagesBulk db msgs1).1 msgs2).1 id = 1 ∧
    ¬(id ∈ (insertMessagesBulk db msgs1).2 ∧
        id ∈ (insertMessagesBulk (insertMessagesBulk db msgs1).1 msgs2).2) := by
  have hc1 := insertBulk_countRows_absent msgs1 db id habs
  constructor
  · by_cases h1 : msgs1.any (fun m => m.bangumi_id == id) = true
    · have hcount1 : countRows (insertMessagesBulk db msgs1).1 id = 1 := by
        rw [hc1, if_pos h1]
      have hpres : (insertMessagesBulk db msgs1).1.any
          (fun r => r.bangumi_id == id) = true :=
        (present_iff_countRows_pos _ _).mpr (by omega)
      rw [insertBulk_countRows_present msgs2 _ id hpres, hcount1]
    · have h2 : msgs2.any (fun m => m.bangumi_id == id) = true := by tauto
      have hcount1 : countRows (insertMessagesBulk db msgs1).1 id = 0 := by
        rw [hc1, if_neg h1]
      have habs1 : (insertMessagesBulk db msgs1).1.any
          (fun r => r.bangumi_id == id) = false := by
        rw [← Bool.not_eq_true]
        intro hp
        have := (present_iff_countRows_pos _ _).mp hp
        omega
      rw [insertBulk_countRows_absent msgs2 _ id habs1, if_pos h2]
  · rintro ⟨hin1, hin2⟩
    obtain ⟨_, hm1⟩ := insertBulk_mem_inserted msgs1 db id hin1
    obtain ⟨ha2, _⟩ := insertBulk_mem_inserted msgs2 _ id hin2
    have hcount1 : countRows (insertMessagesBulk db msgs1).1 id = 1 := by
      rw [hc1, if_pos hm1]
    have := (present_iff_countRows_pos (insertMessagesBulk db msgs1).1 id).mpr (by omega)
    rw [this] at ha2
    exact Bool.noConfusion ha2

open Scraper in
/-- Witness for C2: the same record fed through two successive calls on an
initially empty store yields one row and is reported inserted only once. -/
theorem idempotent_ingestion_dedup_witness :
    countRows (insertMessagesBulk
        (insertMessagesBulk [] [sampleMsg "7" 1 5]).1 [sampleMsg "7" 1 5]).1 "7" = 1 ∧
    ¬("7" ∈ (insertMessagesBulk [] [sampleMsg "7" 1 5]).2 ∧
        "7" ∈ (insertMessagesBulk
          (insertMessagesBulk [] [sampleMsg "7" 1 5]).1 [sampleMsg "7" 1 5]).2) :=
  idempotent_ingestion_dedup [] [sampleMsg "7" 1 5] [sampleMsg "7" 1 5] "7"
    (by decide) (Or.inl (by decide))

namespace Scraper

theorem backoffMs_succ (n : Nat) : backoffMs (n + 1) = 2 * backoffMs n := by
  simp [backoffMs, pow_succ]
  ring

theorem fetchWithRetry_spec (outcome : Nat → Bool) (jitter : Nat → Nat)
    (hj : ∀ i, jitter i < 400) :
    ∀ r, r ≤ 4 →
      (fetchWithRetry outcome jitter r).timeouts.length ≤ r + 1 ∧
      (fetchWithRetry outcome jitter r).timeouts.head? = some (backoffMs (4 - r + 1)) ∧
      List.Chain' (fun a b => b = 2 * a) (fetchWithRetry outcome jitter r).timeouts ∧
      (∀ d ∈ (fetchWithRetry outcome jitter r).delays, 300 ≤ d ∧ d < 700) ∧
      ((fetchWithRetry outcome jitter r).ok = false →
        (fetchWithRetry outcome jitter r).timeouts.length = r + 1) := by
  intro r
  induction r with
  | zero =>
    intro _
    by_cases h0 : outcome 0 = true
    · simp [fetchWithRetry, h0]
    · simp only [Bool.not_eq_true] at h0
      simp [fetchWithRetry, h0]
  | succ r ih =>
    intro hr
    have hr' : r ≤ 4 := Nat.le_of_succ_le hr
    obtain ⟨ihlen, ihhead, ihchain, ihdel, ihfail⟩ := ih hr'
    by_cases ho : outcome (r + 1) = true
    · simp [fetchWithRetry, ho]
    · simp only [Bool.not_eq_true] at ho
      have hsub : 4 - r = 4 - (r + 1) + 1 := by omega
      refine ⟨?_, ?_, ?_, ?_, ?_⟩
      · simp only [fetchWithRetry, ho, Bool.false_eq_true, if_false, List.length_cons]
        omega
      · simp [fetchWithRetry, ho]
      · simp only [fetchWithRetry, ho, Bool.false_eq_true, if_false]
        rw [List.chain'_cons']
        refine ⟨?_, ihchain⟩
        intro y hy
        rw [ihhead] at hy
        cases hy
        rw [hsub, backoffMs_succ]
      · intro d hd
        simp only [fetchWithRetry, ho, Bool.false_eq_true, if_false,
          List.mem_cons] at hd
        rcases hd with rfl | hd
        · have := hj (r + 1)
          omega
        · exact ihdel d hd
      · intro hfail
        simp only [fetchWithRetry, ho, Bool.false_eq_true, if_false] at hfail ⊢
        simp only [List.length_cons]
        rw [ihfail hfail]

end Scraper

open Scraper in
/-- C8 counterexample: with every attempt failing transiently and the jitter
sampled at 0, the five attempts of one cycle use the timeouts
10s, 20s, 40s, 80s, 160s — per-attempt timeouts that double every attempt,
not a fixed per-attempt timeout — while the waits between attempts are the
constant 300 ms (plus jitter below 400 ms), not an exponential backoff.
This refutes the claim that each attempt uses a fixed per-attempt timeout
(and that the inter-attempt backoff is exponential). -/
theorem fetch_schedule_cex :
    fetchWithRetry (fun _ => false) (fun _ => 0) 4 =
      { timeouts := [10000, 20000, 40000, 80000, 160000],
        delays := [300, 300, 300, 300], ok := false } ∧
    ¬((fetchWithRetry (fun _ => false) (fun _ => 0) 4).timeouts.getD 0 0 =
        (fetchWithRetry (fun _ => false) (fun _ => 0) 4).timeouts.getD 1 0) := by
  refine ⟨by decide, by decide⟩

open Scraper in
/-- C8 amended: on transient failure the fetch is retried up to 4 times
(at most 5 total attempts) before the cycle gives up; the wait between
attempts is a bounded uniform jitter in [300 ms, 700 ms), independent of the
attempt number, and it is the per-attempt abort timeout that grows
exponentially: the first attempt gets 10 s and each following attempt twice
the previous one. -/
theorem fetch_retry_bounded_attempts (outcome : Nat → Bool) (jitter : Nat → Nat)
    (hj : ∀ i, jitter i < 400) :
    (fetchWithRetry outcome jitter 4).timeouts.length ≤ 5 ∧
    (fetchWithRetry outcome jitter 4).timeouts.head? = some 10000 ∧
    List.Chain' (fun a b => b = 2 * a) (fetchWithRetry outcome jitter 4).timeouts ∧
    (∀ d ∈ (fetchWithRetry outcome jitter 4).delays, 300 ≤ d ∧ d < 700) ∧
    ((fetchWithRetry outcome jitter 4).ok = false →
      (fetchWithRetry outcome jitter 4).timeouts.length = 5) := by
  have h := fetchWithRetry_spec outcome jitter hj 4 (le_refl 4)
  have hb : backoffMs (4 - 4 + 1) = 10000 := by norm_num [backoffMs]
  rw [hb] at h
  exact h

open Scraper in
/-- Witness for the amended C8 theorem at a concrete oracle (first attempt
succeeds, jitter 7): at most five attempts, first timeout 10 s. -/
theorem fetch_retry_bounded_attempts_witness :
    (fetchWithRetry (fun _ => true) (fun _ => 7) 4).timeouts.length ≤ 5 ∧
    (fetchWithRetry (fun _ => true) (fun _ => 7) 4).timeouts.head? = some 10000 := by
  have h := fetch_retry_bounded_attempts (fun _ => true) (fun _ => 7)
    (fun _ => by norm_num)
  exact ⟨h.1, h.2.1⟩

open Scraper in
/-- C1: evaluation of the transactional unit at a one-record batch under
each failure point.  A failure while inserting notifications (`atNotify`)
rolls the rows back and leaves the cursor alone, yet the `new_messages`
fan-out still fires, because `enriched` was assigned before the throw and
the broadcast sits after the try/catch.  A failure at COMMIT (`atCommit`)
rolls the rows back but the already-mutated in-memory cursor keeps its
advanced value `(lastTs, lastIdAtTs) = (50, 5)` — and the fan-out fires too.
The successful run is shown for contrast.  The batch's rows themselves are
indeed never half-committed (`db` is unchanged in both failing runs). -/
theorem tx_failure_cycle_effects :
    runCycleTx TxFail.atNotify ⟨[], ⟨0, 0, 0⟩⟩ [sampleMsg "5" 3 50] 100 false =
      { state := { db := [], cursor := ⟨0, 0, 0⟩ }, broadcasts := [["5"]] } ∧
    runCycleTx TxFail.atCommit ⟨[], ⟨0, 0, 0⟩⟩ [sampleMsg "5" 3 50] 100 false =
      { state := { db := [], cursor := ⟨50, 5, 0⟩ }, broadcasts := [["5"]] } ∧
    runCycleTx TxFail.noFail ⟨[], ⟨0, 0, 0⟩⟩ [sampleMsg "5" 3 50] 100 false =
      { state := { db := [toRow (sampleMsg "5" 3 50)], cursor := ⟨50, 5, 0⟩ },
        broadcasts := [["5"]] } := by
  refine ⟨by decide, by decide, by decide⟩

namespace JsonWire

theorem stringifyFields_append_single :
    ∀ (fs : List (String × Jval)) (p : String × Jval), fs ≠ [] →
      stringifyFields (fs ++ [p]) = stringifyFields fs ++ "," ++ fieldStr p := by
  intro fs
  induction fs with
  | nil => intro p h; exact absurd rfl h
  | cons q rest ih =>
    intro p _
    cases rest with
    | nil =>
      cases q with
      | mk k v =>
        cases p with
        | mk k2 v2 =>
          simp only [List.nil_append, List.cons_append]
          rw [show stringifyFields [(k, v), (k2, v2)] =
              "\"" ++ escapeJson k ++ "\":" ++ stringifyVal v ++ "," ++
                stringifyFields [(k2, v2)] from rfl]
          rw [show stringifyFields [(k, v)] =
              "\"" ++ escapeJson k ++ "\":" ++ stringifyVal v from rfl]
          rw [show fieldStr (k2, v2) =
              "\"" ++ escapeJson k2 ++ "\":" ++ stringifyVal v2 from rfl]
          rw [show stringifyFields [(k2, v2)] =
              "\"" ++ escapeJson k2 ++ "\":" ++ stringifyVal v2 from rfl]
    | cons r rest' =>
      cases q with
      | mk k v =>
        have hih := ih p (by simp)
        simp only [List.cons_append] at hih ⊢
        rw [show stringifyFields ((k, v) :: r :: (rest' ++ [p])) =
            "\"" ++ escapeJson k ++ "\":" ++ stringifyVal v ++ "," ++
              stringifyFields (r :: (rest' ++ [p])) from rfl]
        rw [hih]
        rw [show stringifyFields ((k, v) :: r :: rest') =
            "\"" ++ escapeJson k ++ "\":" ++ stringifyVal v ++ "," ++
              stringifyFields (r :: rest') from rfl]
        simp [String.append_assoc]

theorem mk_dropLast_data_append (s u : String) (c : Char) (h : u.data = [c]) :
    String.mk ((s ++ u).data.dropLast) = s := by
  rw [String.data_append, h, List.dropLast_concat]

end JsonWire

open JsonWire in
/-- C10 counterexample: on the canonical serialization of the empty object,
the two stamping variants disagree — the parse-and-restringify variant in
the current revision yields a well-formed object, while `fastPacket` splices
a leading comma and produces a malformed payload. -/
theorem fastPacket_empty_object_cex :
    stampParse [] 1 = "\x7b\"ackId\":1\x7d" ∧
    stampSplice [] 1 = "\x7b,\"ackId\":1\x7d" ∧
    stampSplice [] 1 ≠ stampParse [] 1 := by
  refine ⟨by decide, by decide, by decide⟩

open JsonWire in
/-- C10 amended: the two stamping variants produce identical wire payloads
for every payload string that is the canonical JSON serialization of an
object with at least one field and no existing `ackId` field (on the empty
object they differ, and on an object already carrying `ackId` the splice
appends a duplicate key while the assignment overwrites in place). -/
theorem fastPacket_refines_restringify (fs : List (String × Jval)) (ackId : Nat)
    (hne : fs ≠ []) (hnoack : fs.any (fun p => p.1 == "ackId") = false) :
    stampSplice fs ackId = stampParse fs ackId := by
  unfold stampSplice stampParse fastPacket setField
  rw [hnoack]
  simp only [Bool.false_eq_true, if_false]
  rw [show stringifyVal (Jval.jobj (fs ++ [("ackId", Jval.jnum (ackId : Int))])) =
      "\x7b" ++ stringifyFields (fs ++ [("ackId", Jval.jnum (ackId : Int))]) ++ "\x7d"
    from rfl]
  rw [stringifyFields_append_single fs _ hne]
  rw [show stringifyVal (Jval.jobj fs) = "\x7b" ++ stringifyFields fs ++ "\x7d" from rfl]
  rw [show ("\x7b" ++ stringifyFields fs ++ "\x7d" : String) =
      ("\x7b" ++ stringifyFields fs) ++ "\x7d" from by
    simp [String.append_assoc]]
  rw [mk_dropLast_data_append ("\x7b" ++ stringifyFields fs) "\x7d" _ rfl]
  rw [show fieldStr ("ackId", Jval.jnum (ackId : Int)) =
      "\"ackId\":" ++ jsIntRepr (ackId : Int) from by
    unfold fieldStr
    rw [show escapeJson "ackId" = "ackId" from by decide]
    rw [show stringifyVal (Jval.jnum (ackId : Int)) = jsIntRepr (ackId : Int) from rfl]
    simp [String.append_assoc]]
  simp only [show (",\"ackId\":" : String) = "," ++ "\"ackId\":" from by decide,
    String.append_assoc]

open JsonWire in
/-- Witness for the amended C10 theorem: on the one-field object
`\x7b"a":1\x7d` both variants yield `\x7b"a":1,"ackId":5\x7d`. -/
theorem fastPacket_refines_restringify_witness :
    stampSplice [("a", Jval.jnum 1)] 5 = stampParse [("a", Jval.jnum 1)] 5 ∧
    stampParse [("a", Jval.jnum 1)] 5 = "\x7b\"a\":1,\"ackId\":5\x7d" :=
  ⟨fastPacket_refines_restringify [("a", Jval.jnum 1)] 5 (List.cons_ne_nil _ _) (by decide),
    by decide⟩

namespace WS

theorem lookupUser_updateUser :
    ∀ (l : List (String × WSUser)) (uid : String) (u u1 : WSUser),
      lookupUser uid l = some u →
      lookupUser uid (updateUser uid u1 l) = some u1 := by
  intro l
  induction l with
  | nil => intro uid u u1 h; exact absurd h (by simp [lookupUser])
  | cons p rest ih =>
    intro uid u u1 h
    obtain ⟨k, v⟩ := p
    by_cases hk : k = uid
    · subst hk
      have hhead : (if ((k, v) : String × WSUser).1 = k then (k, u1) else (k, v)) =
          (k, u1) := if_pos rfl
      rw [show updateUser k u1 ((k, v) :: rest) = (k, u1) :: updateUser k u1 rest from by
        simp [updateUser]]
      simp [lookupUser]
    · have hhead : (if ((k, v) : String × WSUser).1 = uid then (uid, u1) else (k, v)) =
          (k, v) := if_neg hk
      simp only [lookupUser, if_neg hk] at h
      rw [show updateUser uid u1 ((k, v) :: rest) = (k, v) :: updateUser uid u1 rest from by
        simp only [updateUser, List.map_cons, hhead]]
      simp only [lookupUser, if_neg hk]
      exact ih uid u u1 h

end WS

open WS in
/-- C9 counterexample: user "1" is recorded active but its only connection
has closed; the recompute therefore observes a transition (active to
inactive), yet the one connection subscribed to "1" receives no
presence-update attempt, because its client-supplied foreground flag
(`meta.open`) is false and the broadcast loop skips non-foreground
connections.  This refutes the claim that the event goes to every connection
subscribed to that uid on a transition. -/
theorem presence_update_skips_background_cex :
    (lookupUser "1" cexWorldC9.users).map (fun u => u.active) = some true ∧
    (lookupUser "1" cexWorldC9.users).map computeActive = some false ∧
    cexWorldC9.allClients = [cexSubConnC9] ∧
    cexSubConnC9.meta.subs.contains "1" = true ∧
    (recalcAndNotifyPresence 50 cexWorldC9 "1").2 = [] := by
  refine ⟨by decide, by decide, by decide, by decide, by decide⟩

open WS in
/-- C9 amended: a presence recompute attempts a presence-update send exactly
to the connections that are subscribed to the uid *and* have their
foreground/open flag set, and it does so if and only if the derived active
value differs from the stored one — never on a recompute without a
transition; whenever the derived value is active (in particular on a
transition to active) the user's `lastSeen` is refreshed to the current
time. -/
theorem presence_recompute_broadcast (t : Nat) (w : PresenceWorld) (uid : String)
    (u : WSUser) (hu : lookupUser uid w.users = some u) :
    (u.active ≠ computeActive u →
      (recalcAndNotifyPresence t w uid).2 =
        (w.allClients.filter
          (fun c => c.meta.openFlag && c.meta.subs.contains uid)).map
          (fun c => c.meta.id)) ∧
    (u.active = computeActive u → (recalcAndNotifyPresence t w uid).2 = []) ∧
    (computeActive u = true →
      lookupUser uid (recalcAndNotifyPresence t w uid).1.users =
        some { u with active := true, lastSeen := t }) ∧
    (computeActive u = false →
      lookupUser uid (recalcAndNotifyPresence t w uid).1.users =
        some { u with active := false }) := by
  refine ⟨?_, ?_, ?_, ?_⟩
  · intro hne
    simp only [recalcAndNotifyPresence, hu]
    rw [if_neg hne]
  · intro heq
    simp only [recalcAndNotifyPresence, hu]
    rw [if_pos heq]
  · intro hact
    simp only [recalcAndNotifyPresence, hu, hact]
    split
    · exact lookupUser_updateUser w.users uid u _ hu
    · exact lookupUser_updateUser w.users uid u _ hu
  · intro hact
    simp only [recalcAndNotifyPresence, hu, hact]
    split
    · exact lookupUser_updateUser w.users uid u _ hu
    · exact lookupUser_updateUser w.users uid u _ hu

open WS in
/-- Witness for the amended C9 theorem: user "1" is stored inactive but has
an open connection; the recompute broadcasts exactly to the foreground
subscriber (id 9) and stamps `lastSeen` with the recompute time. -/
theorem presence_recompute_broadcast_witness :
    (recalcAndNotifyPresence 50 wWorldC9 "1").2 = [9] ∧
    lookupUser "1" (recalcAndNotifyPresence 50 wWorldC9 "1").1.users =
      some { uid := "1", connections := [wOpenConnC9], active := true, lastSeen := 50 } := by
  have hu : lookupUser "1" wWorldC9.users =
      some { uid := "1", connections := [wOpenConnC9], active := false, lastSeen := 0 } := by
    decide
  have h := presence_recompute_broadcast 50 wWorldC9 "1" _ hu
  refine ⟨?_, ?_⟩
  · rw [h.1 (by decide)]
    decide
  · exact h.2.2.1 (by decide)

namespace WS

theorem setBpIfHigh_unacked (c : Conn) : (setBpIfHigh c).unacked = c.unacked := by
  unfold setBpIfHigh
  split <;> rfl

theorem lookupUnacked_eq_none_iff (a : Nat) :
    ∀ (l : List (Nat × UnackedMessage)),
      lookupUnacked a l = none ↔ ∀ p ∈ l, p.1 ≠ a := by
  intro l
  induction l with
  | nil => simp [lookupUnacked]
  | cons p rest ih =>
    obtain ⟨k, e⟩ := p
    by_cases hk : k = a
    · subst hk
      simp [lookupUnacked, ih]
    · simp [lookupUnacked, hk, ih]

theorem lookupUnacked_update_none (a j : Nat) (e : UnackedMessage)
    (l : List (Nat × UnackedMessage)) (h : lookupUnacked a l = none) :
    lookupUnacked a (updateUnacked j e l) = none := by
  rw [lookupUnacked_eq_none_iff] at h ⊢
  intro p hp
  obtain ⟨q, hq, rfl⟩ := List.mem_map.mp hp
  by_cases hqj : q.1 = j
  · rw [if_pos hqj]
    exact hqj ▸ h q hq
  · rw [if_neg hqj]
    exact h q hq

theorem lookupUnacked_erase_none (a j : Nat)
    (l : List (Nat × UnackedMessage)) (h : lookupUnacked a l = none) :
    lookupUnacked a (eraseUnacked j l) = none := by
  rw [lookupUnacked_eq_none_iff] at h ⊢
  intro p hp
  exact h p (List.mem_of_mem_filter hp)

theorem lookupUnacked_erase_self (a : Nat) (l : List (Nat × UnackedMessage)) :
    lookupUnacked a (eraseUnacked a l) = none := by
  rw [lookupUnacked_eq_none_iff]
  intro p hp
  have := List.of_mem_filter hp
  simpa using this

theorem ne_of_lookup_some_of_none {a b : Nat} {l : List (Nat × UnackedMessage)}
    {e : UnackedMessage} (ha : lookupUnacked a l = none)
    (hb : lookupUnacked b l = some e) : b ≠ a := by
  intro hba
  subst hba
  rw [ha] at hb
  exact Option.noConfusion hb

theorem drainGo_absent (t a : Nat) :
    ∀ (fuel : Nat) (c : Conn), lookupUnacked a c.unacked = none →
      lookupUnacked a (drainGo t fuel c).1.unacked = none ∧
      ∀ p ∈ (drainGo t fuel c).2, p.1 ≠ a := by
  intro fuel
  induction fuel with
  | zero =>
    intro c h
    exact ⟨h, by simp [drainGo]⟩
  | succ fuel ih =>
    intro c h
    obtain ⟨bp, q, un, buf, ro⟩ := c
    cases bp with
    | true =>
      refine ⟨?_, ?_⟩ <;> simp_all [drainGo]
    | false =>
      cases q with
      | nil =>
        refine ⟨?_, ?_⟩ <;> simp_all [drainGo]
      | cons item rest =>
        simp only at h
        cases hl : lookupUnacked item.1 un with
        | none =>
          have hrec := ih (setBpIfHigh ⟨false, rest, un, buf, ro⟩)
            (by rw [setBpIfHigh_unacked]; exact h)
          simpa [drainGo, hl] using hrec
        | some entry =>
          cases hws : entry.wasSent with
          | true =>
            have hrec := ih (setBpIfHigh ⟨false, rest, un, buf, ro⟩)
              (by rw [setBpIfHigh_unacked]; exact h)
            simpa [drainGo, hl, hws] using hrec
          | false =>
            have hne : item.1 ≠ a := ne_of_lookup_some_of_none h hl
            have hupd : lookupUnacked a
                (updateUnacked item.1 { entry with wasSent := true, lastSentAt := t } un)
                = none := lookupUnacked_update_none a item.1 _ un h
            have hrec := ih (setBpIfHigh ⟨false, rest,
                updateUnacked item.1 { entry with wasSent := true, lastSentAt := t } un,
                buf + item.2.length, ro⟩)
              (by rw [setBpIfHigh_unacked]; exact hupd)
            refine ⟨?_, ?_⟩
            · simpa [drainGo, hl, hws] using hrec.1
            · simp only [drainGo, hl, hws]
              simp only [Bool.false_eq_true, if_false, List.mem_cons]
              intro p hp
              rcases hp with rfl | hp2
              · exact hne
              · exact hrec.2 p hp2

theorem drainPendingQueue_absent (t a : Nat) (c : Conn)
    (h : lookupUnacked a c.unacked = none) :
    lookupUnacked a (drainPendingQueue t c).1.unacked = none ∧
    ∀ p ∈ (drainPendingQueue t c).2, p.1 ≠ a := by
  unfold drainPendingQueue
  split
  · exact drainGo_absent t a _ c h
  · exact ⟨h, by simp⟩

theorem checkBackpressure_absent (t a : Nat) (c : Conn)
    (h : lookupUnacked a c.unacked = none) :
    lookupUnacked a (checkBackpressure t c).1.unacked = none ∧
    ∀ p ∈ (checkBackpressure t c).2.2, p.1 ≠ a := by
  unfold checkBackpressure
  split
  · split
    · exact drainPendingQueue_absent t a _ h
    · exact ⟨h, by simp⟩
  · split
    · exact ⟨h, by simp⟩
    · exact ⟨h, by simp⟩

theorem tickEntries_absent (t a : Nat) :
    ∀ (l : List (Nat × UnackedMessage)) (c : Conn),
      lookupUnacked a c.unacked = none →
      lookupUnacked a (tickEntries t l c).1.unacked = none ∧
      ∀ p ∈ (tickEntries t l c).2, p.1 ≠ a := by
  intro l
  induction l with
  | nil => intro c h; exact ⟨h, by simp [tickEntries]⟩
  | cons hd rest ih =>
    intro c h
    obtain ⟨ackId, e0⟩ := hd
    cases hl : lookupUnacked ackId c.unacked with
    | none =>
      have hrec := ih c h
      simpa [tickEntries, hl] using hrec
    | some entry =>
      have hne : ackId ≠ a := ne_of_lookup_some_of_none h hl
      simp only [tickEntries, hl]
      by_cases hskip :
          (!entry.wasSent && c.pendingQueue.any (fun p => p.1 == ackId)) = true
      · rw [if_pos hskip]
        exact ih c h
      · rw [if_neg hskip]
        by_cases hexp : decide (MAX_RETRY_WINDOW_MS < t - entry.firstSentAt) = true
        · rw [if_pos hexp]
          exact ih _ (lookupUnacked_erase_none a ackId c.unacked h)
        · rw [if_neg hexp]
          by_cases hdue : decide (entry.nextRetry ≤ t) = true
          · rw [if_pos hdue]
            by_cases hmax : decide (MAX_RETRIES ≤ entry.retries) = true
            · rw [if_pos hmax]
              exact ih _ (lookupUnacked_erase_none a ackId c.unacked h)
            · rw [if_neg hmax]
              set entry1 : UnackedMessage :=
                { entry with
                  retries := entry.retries + 1,
                  nextRetry := t + backoffRetry (entry.retries + 1) } with he1
              set c1 : Conn :=
                { c with unacked := updateUnacked ackId entry1 c.unacked } with hc1
              have h1 : lookupUnacked a c1.unacked = none := by
                rw [hc1]
                exact lookupUnacked_update_none a ackId _ _ h
              have hchk := checkBackpressure_absent t a c1 h1
              by_cases hbp2 : (!(checkBackpressure t c1).2.1) = true
              · rw [if_pos hbp2]
                have h2 : lookupUnacked a
                    (updateUnacked ackId
                      { entry1 with wasSent := true, lastSentAt := t }
                      (checkBackpressure t c1).1.unacked) = none :=
                  lookupUnacked_update_none a ackId _ _ hchk.1
                have hrec := ih
                  { (checkBackpressure t c1).1 with
                    buffered := (checkBackpressure t c1).1.buffered +
                      entry1.payloadStr.length,
                    unacked := updateUnacked ackId
                      { entry1 with wasSent := true, lastSentAt := t }
                      (checkBackpressure t c1).1.unacked }
                  h2
                refine ⟨hrec.1, ?_⟩
                intro p hp
                rcases List.mem_append.mp hp with hp1 | hp2
                · exact hchk.2 p hp1
                · rcases List.mem_cons.mp hp2 with rfl | hp3
                  · exact hne
                  · exact hrec.2 p hp3
              · rw [if_neg hbp2]
                split
                · have hrec := ih _ hchk.1
                  refine ⟨hrec.1, ?_⟩
                  intro p hp
                  rcases List.mem_append.mp hp with hp1 | hp2
                  · exact hchk.2 p hp1
                  · exact hrec.2 p hp2
                · have hrec := ih
                    { (checkBackpressure t c1).1 with
                      pendingQueue := (checkBackpressure t c1).1.pendingQueue ++
                        [(ackId, entry1.payloadStr)] }
                    hchk.1
                  refine ⟨hrec.1, ?_⟩
                  intro p hp
                  rcases List.mem_append.mp hp with hp1 | hp2
                  · exact hchk.2 p hp1
                  · exact hrec.2 p hp2
          · rw [if_neg hdue]
            exact ih c h

theorem retryTickConn_absent (t a : Nat) (c : Conn)
    (h : lookupUnacked a c.unacked = none) :
    lookupUnacked a (retryTickConn t c).1.unacked = none ∧
    ∀ p ∈ (retryTickConn t c).2, p.1 ≠ a := by
  simp only [retryTickConn]
  by_cases hro : (!c.readyOpen) = true
  · rw [if_pos hro]
    exact ⟨h, by simp⟩
  · rw [if_neg hro]
    by_cases hbp : c.backpressure = true
    · rw [if_pos hbp]
      have hchk := checkBackpressure_absent t a c h
      by_cases hq1 :
          decide (0 < (checkBackpressure t c).1.pendingQueue.length) = true
      · rw [if_pos hq1]
        have hd := drainPendingQueue_absent t a (checkBackpressure t c).1 hchk.1
        by_cases hemp :
            ((drainPendingQueue t (checkBackpressure t c).1).1.unacked).isEmpty = true
        · rw [if_pos hemp]
          refine ⟨hd.1, ?_⟩
          intro p hp
          rcases List.mem_append.mp hp with hp1 | hp2
          · exact hchk.2 p hp1
          · exact hd.2 p hp2
        · rw [if_neg hemp]
          have hr := tickEntries_absent t a
            (drainPendingQueue t (checkBackpressure t c).1).1.unacked
            (drainPendingQueue t (checkBackpressure t c).1).1 hd.1
          refine ⟨hr.1, ?_⟩
          intro p hp
          rcases List.mem_append.mp hp with hp1 | hp2
          · rcases List.mem_append.mp hp1 with hp3 | hp4
            · exact hchk.2 p hp3
            · exact hd.2 p hp4
          · exact hr.2 p hp2
      · rw [if_neg hq1]
        by_cases hemp : ((checkBackpressure t c).1.unacked).isEmpty = true
        · rw [if_pos hemp]
          exact ⟨hchk.1, fun p hp => hchk.2 p hp⟩
        · rw [if_neg hemp]
          have hr := tickEntries_absent t a
            (checkBackpressure t c).1.unacked (checkBackpressure t c).1 hchk.1
          refine ⟨hr.1, ?_⟩
          intro p hp
          rcases List.mem_append.mp hp with hp1 | hp2
          · exact hchk.2 p hp1
          · exact hr.2 p hp2
    · rw [if_neg hbp]
      by_cases hq1 : decide (0 < c.pendingQueue.length) = true
      · rw [if_pos hq1]
        have hd := drainPendingQueue_absent t a c h
        by_cases hemp : ((drainPendingQueue t c).1.unacked).isEmpty = true
        · rw [if_pos hemp]
          refine ⟨hd.1, ?_⟩
          intro p hp
          rcases List.mem_append.mp hp with hp1 | hp2
          · exact absurd hp1 (List.not_mem_nil p)
          · exact hd.2 p hp2
        · rw [if_neg hemp]
          have hr := tickEntries_absent t a
            (drainPendingQueue t c).1.unacked (drainPendingQueue t c).1 hd.1
          refine ⟨hr.1, ?_⟩
          intro p hp
          rcases List.mem_append.mp hp with hp1 | hp2
          · rcases List.mem_append.mp hp1 with hp3 | hp4
            · exact absurd hp3 (List.not_mem_nil p)
            · exact hd.2 p hp4
          · exact hr.2 p hp2
      · rw [if_neg hq1]
        by_cases hemp : (c.unacked).isEmpty = true
        · rw [if_pos hemp]
          exact ⟨h, by simp⟩
        · rw [if_neg hemp]
          have hr := tickEntries_absent t a c.unacked c h
          refine ⟨hr.1, ?_⟩
          intro p hp
          rcases List.mem_append.mp hp with hp1 | hp2
          · exact absurd hp1 (List.not_mem_nil p)
          · exact hr.2 p hp2

theorem handleAck_lookup_self (c : Conn) (ackId : Nat) (hne : ackId ≠ 0) :
    lookupUnacked ackId (handleAck c ackId).unacked = none := by
  unfold handleAck
  rw [if_pos hne]
  exact lookupUnacked_erase_self ackId c.unacked

theorem handleAck_absent (c : Conn) (a j : Nat)
    (h : lookupUnacked a c.unacked = none) :
    lookupUnacked a (handleAck c j).unacked = none := by
  unfold handleAck
  split
  · exact lookupUnacked_erase_none a j c.unacked h
  · exact h

theorem runOps_absent (a : Nat) :
    ∀ (ops : List WsOp) (c : Conn), lookupUnacked a c.unacked = none →
      lookupUnacked a (runOps ops c).1.unacked = none ∧
      ∀ p ∈ (runOps ops c).2, p.1 ≠ a := by
  intro ops
  induction ops with
  | nil => intro c h; exact ⟨h, by simp [runOps]⟩
  | cons op rest ih =>
    intro c h
    cases op with
    | tick t =>
      have hstep := retryTickConn_absent t a c h
      have hrec := ih (retryTickConn t c).1 hstep.1
      refine ⟨hrec.1, ?_⟩
      intro p hp
      simp only [runOps] at hp
      rcases List.mem_append.mp hp with hp1 | hp2
      · exact hstep.2 p hp1
      · exact hrec.2 p hp2
    | drain t =>
      have hstep := drainPendingQueue_absent t a c h
      have hrec := ih (drainPendingQueue t c).1 hstep.1
      refine ⟨hrec.1, ?_⟩
      intro p hp
      simp only [runOps] at hp
      rcases List.mem_append.mp hp with hp1 | hp2
      · exact hstep.2 p hp1
      · exact hrec.2 p hp2
    | ack j =>
      have hstep := handleAck_absent c a j h
      have hrec := ih (handleAck c j) hstep
      refine ⟨hrec.1, ?_⟩
      intro p hp
      simp only [runOps] at hp
      rcases List.mem_append.mp hp with hp1 | hp2
      · exact absurd hp1 (List.not_mem_nil p)
      · exact hrec.2 p hp2

end WS

open WS in
/-- C6: once an `ack` frame carrying a (truthy) delivery id has been
processed, the entry is gone from the unacked map, and no sequence of
subsequent events on that connection — retry-ticker passes, pending-queue
drains, further acks — ever attempts to send a payload under that id again:
the ticker only resends ids present in the map, and the drain discards a
queued item whose map entry is gone without transmitting it. -/
theorem ack_cancels_all_retries (c : Conn) (ackId : Nat) (ops : List WsOp)
    (hne : ackId ≠ 0) :
    lookupUnacked ackId (handleAck c ackId).unacked = none ∧
    ∀ p ∈ (runOps ops (handleAck c ackId)).2, p.1 ≠ ackId := by
  have h0 := handleAck_lookup_self c ackId hne
  exact ⟨h0, (runOps_absent ackId ops (handleAck c ackId) h0).2⟩

open WS in
/-- Witness for C6: the connection holding delivery id 1 with 2 retries
already pending; after the ack, the entry is gone (so the later ticker
passes at times 10 and 200 and the drain retransmit nothing for id 1). -/
theorem ack_cancels_all_retries_witness :
    (1 : Nat) ≠ 0 ∧
    lookupUnacked 1 (handleAck cexConnC6 1).unacked = none :=
  ⟨by decide,
    (ack_cancels_all_retries cexConnC6 1 [WsOp.tick 10, WsOp.tick 200, WsOp.drain 300]
      (by decide)).1⟩

namespace WS

theorem setBpIfHigh_buffered (c : Conn) : (setBpIfHigh c).buffered = c.buffered := by
  unfold setBpIfHigh
  split <;> rfl

theorem setBpIfHigh_pendingQueue (c : Conn) :
    (setBpIfHigh c).pendingQueue = c.pendingQueue := by
  unfold setBpIfHigh
  split <;> rfl

theorem setBpIfHigh_of_high (c : Conn) (h : BUFFER_HIGH_WATERMARK < c.buffered) :
    setBpIfHigh c = { c with backpressure := true } := by
  unfold setBpIfHigh
  rw [if_pos h]

theorem setBpIfHigh_of_low (c : Conn) (h : ¬ BUFFER_HIGH_WATERMARK < c.buffered) :
    setBpIfHigh c = c := by
  unfold setBpIfHigh
  rw [if_neg h]

theorem drainGo_of_backpressure (t : Nat) (fuel : Nat) (c : Conn)
    (h : c.backpressure = true) : drainGo t fuel c = (c, []) := by
  cases fuel with
  | zero => rfl
  | succ fuel => simp [drainGo, h]

theorem checkBackpressure_set (t : Nat) (c : Conn) (hbp : c.backpressure = false)
    (hhigh : BUFFER_HIGH_WATERMARK < c.buffered) :
    checkBackpressure t c = ({ c with backpressure := true }, true, []) := by
  unfold checkBackpressure
  rw [hbp]
  simp only [Bool.false_eq_true, if_false]
  rw [if_pos hhigh]

theorem checkBackpressure_hold (t : Nat) (c : Conn) (hbp : c.backpressure = true)
    (hlow : BUFFER_LOW_WATERMARK ≤ c.buffered) :
    checkBackpressure t c = (c, true, []) := by
  unfold checkBackpressure
  rw [hbp]
  simp only [if_true]
  rw [if_neg (by omega)]

theorem checkBackpressure_release (t : Nat) (c : Conn) (hbp : c.backpressure = true)
    (hlow : c.buffered < BUFFER_LOW_WATERMARK) :
    checkBackpressure t c =
      ((drainPendingQueue t { c with backpressure := false }).1,
        (drainPendingQueue t { c with backpressure := false }).1.backpressure,
        (drainPendingQueue t { c with backpressure := false }).2) := by
  unfold checkBackpressure
  rw [hbp]
  simp only [if_true]
  rw [if_pos hlow]

theorem checkBackpressure_idle (t : Nat) (c : Conn) (hbp : c.backpressure = false)
    (hhigh : ¬ BUFFER_HIGH_WATERMARK < c.buffered) :
    checkBackpressure t c = (c, false, []) := by
  unfold checkBackpressure
  rw [hbp]
  simp only [Bool.false_eq_true, if_false]
  rw [if_neg hhigh]

theorem sendReliable_queued (t ackId : Nat) (p : String) (c : Conn)
    (hro : c.readyOpen = true) (hbp : c.backpressure = true)
    (hlow : BUFFER_LOW_WATERMARK ≤ c.buffered) :
    sendReliable t ackId p c =
      ({ c with
          unacked := c.unacked ++ [(ackId, newEntry t p)],
          pendingQueue := c.pendingQueue ++ [(ackId, p)] }, []) := by
  unfold sendReliable
  rw [hro]
  simp only [Bool.not_true, Bool.false_eq_true, if_false]
  rw [checkBackpressure_hold t _ (by simpa using hbp) (by simpa using hlow)]
  simp

end WS

namespace WS

theorem tickEntries_backpressured (t : Nat) :
    ∀ (l : List (Nat × UnackedMessage)) (c : Conn),
      c.backpressure = true → BUFFER_LOW_WATERMARK ≤ c.buffered →
      (tickEntries t l c).2 = [] ∧
      (tickEntries t l c).1.backpressure = true ∧
      (tickEntries t l c).1.buffered = c.buffered := by
  intro l
  induction l with
  | nil => intro c hbp hlow; exact ⟨rfl, hbp, rfl⟩
  | cons hd rest ih =>
    intro c hbp hlow
    obtain ⟨ackId, e0⟩ := hd
    cases hl : lookupUnacked ackId c.unacked with
    | none =>
      simpa [tickEntries, hl] using ih c hbp hlow
    | some entry =>
      simp only [tickEntries, hl]
      by_cases hskip :
          (!entry.wasSent && c.pendingQueue.any (fun p => p.1 == ackId)) = true
      · rw [if_pos hskip]
        exact ih c hbp hlow
      · rw [if_neg hskip]
        by_cases hexp : decide (MAX_RETRY_WINDOW_MS < t - entry.firstSentAt) = true
        · rw [if_pos hexp]
          exact ih _ hbp hlow
        · rw [if_neg hexp]
          by_cases hdue : decide (entry.nextRetry ≤ t) = true
          · rw [if_pos hdue]
            by_cases hmax : decide (MAX_RETRIES ≤ entry.retries) = true
            · rw [if_pos hmax]
              exact ih _ hbp hlow
            · rw [if_neg hmax]
              set entry1 : UnackedMessage :=
                { entry with
                  retries := entry.retries + 1,
                  nextRetry := t + backoffRetry (entry.retries + 1) } with he1
              set c1 : Conn :=
                { c with unacked := updateUnacked ackId entry1 c.unacked } with hc1
              have hc1bp : c1.backpressure = true := hbp
              have hc1buf : c1.buffered = c.buffered := rfl
              rw [checkBackpressure_hold t c1 hc1bp (by rw [hc1buf]; exact hlow)]
              simp only [Bool.not_true, Bool.false_eq_true, if_false]
              split
              · have := ih c1 hc1bp (by rw [hc1buf]; exact hlow)
                simpa using this
              · have hq : ({ c1 with pendingQueue :=
                    c1.pendingQueue ++ [(ackId, entry1.payloadStr)] } : Conn).backpressure
                    = true := hbp
                have := ih
                  { c1 with pendingQueue :=
                    c1.pendingQueue ++ [(ackId, entry1.payloadStr)] } hq
                  (by show BUFFER_LOW_WATERMARK ≤ c.buffered; exact hlow)
                simpa using this
          · rw [if_neg hdue]
            exact ih c hbp hlow

theorem retryTickConn_backpressured (t : Nat) (c : Conn)
    (hbp : c.backpressure = true) (hlow : BUFFER_LOW_WATERMARK ≤ c.buffered) :
    (retryTickConn t c).2 = [] ∧
    (retryTickConn t c).1.backpressure = true ∧
    (retryTickConn t c).1.buffered = c.buffered := by
  simp only [retryTickConn]
  by_cases hro : (!c.readyOpen) = true
  · rw [if_pos hro]
    exact ⟨rfl, hbp, rfl⟩
  · rw [if_neg hro]
    rw [hbp]
    simp only [if_true]
    rw [checkBackpressure_hold t c hbp hlow]
    have hdq : drainPendingQueue t c = (c, []) := by
      unfold drainPendingQueue
      split
      · exact drainGo_of_backpressure t _ c hbp
      · rfl
    by_cases hq : decide (0 < c.pendingQueue.length) = true
    · rw [if_pos hq, hdq]
      split
      · exact ⟨rfl, hbp, rfl⟩
      · have := tickEntries_backpressured t c.unacked c hbp hlow
        simpa using this
    · rw [if_neg hq]
      split
      · exact ⟨rfl, hbp, rfl⟩
      · have := tickEntries_backpressured t c.unacked c hbp hlow
        simpa using this

theorem drainGo_fifo (t : Nat) :
    ∀ (fuel : Nat) (c : Conn),
      ∃ k, (drainGo t fuel c).1.pendingQueue = c.pendingQueue.drop k ∧
        List.Sublist ((drainGo t fuel c).2) (c.pendingQueue.take k) := by
  intro fuel
  induction fuel with
  | zero =>
    intro c
    exact ⟨0, rfl, by simp [drainGo]⟩
  | succ fuel ih =>
    intro c
    obtain ⟨bp, q, un, buf, ro⟩ := c
    cases bp with
    | true => exact ⟨0, by simp [drainGo], by simp [drainGo]⟩
    | false =>
      cases q with
      | nil => exact ⟨0, by simp [drainGo], by simp [drainGo]⟩
      | cons item rest =>
        cases hl : lookupUnacked item.1 un with
        | none =>
          obtain ⟨k, hq, htr⟩ := ih (setBpIfHigh ⟨false, rest, un, buf, ro⟩)
          rw [setBpIfHigh_pendingQueue] at hq htr
          refine ⟨k + 1, ?_, ?_⟩
          · simpa [drainGo, hl] using hq
          · simp only [drainGo, hl, Bool.false_eq_true, if_false, List.take_succ_cons]
            exact List.Sublist.cons item htr
        | some entry =>
          cases hws : entry.wasSent with
          | true =>
            obtain ⟨k, hq, htr⟩ := ih (setBpIfHigh ⟨false, rest, un, buf, ro⟩)
            rw [setBpIfHigh_pendingQueue] at hq htr
            refine ⟨k + 1, ?_, ?_⟩
            · simpa [drainGo, hl, hws] using hq
            · simp only [drainGo, hl, hws, Bool.false_eq_true, if_false, if_true,
                List.take_succ_cons]
              exact List.Sublist.cons item htr
          | false =>
            obtain ⟨k, hq, htr⟩ := ih (setBpIfHigh ⟨false, rest,
              updateUnacked item.1 { entry with wasSent := true, lastSentAt := t } un,
              buf + item.2.length, ro⟩)
            rw [setBpIfHigh_pendingQueue] at hq htr
            refine ⟨k + 1, ?_, ?_⟩
            · simpa [drainGo, hl, hws] using hq
            · simp only [drainGo, hl, hws, Bool.false_eq_true, if_false,
                List.take_succ_cons]
              exact List.Sublist.cons₂ item htr

theorem drainGo_watermark (t : Nat) :
    ∀ (fuel : Nat) (c : Conn), c.backpressure = false →
      ((drainGo t fuel c).1.backpressure = true →
        BUFFER_HIGH_WATERMARK < (drainGo t fuel c).1.buffered) ∧
      ((drainGo t fuel c).1.backpressure = false →
        c.pendingQueue.length ≤ fuel → (drainGo t fuel c).1.pendingQueue = []) := by
  intro fuel
  induction fuel with
  | zero =>
    intro c hbp
    refine ⟨?_, ?_⟩
    · intro habs
      rw [show (drainGo t 0 c).1 = c from rfl, hbp] at habs
      exact absurd habs (by simp)
    · intro _ hlen
      have hq : c.pendingQueue = [] := List.length_eq_zero.mp (Nat.le_zero.mp hlen)
      rw [show (drainGo t 0 c).1 = c from rfl]
      exact hq
  | succ fuel ih =>
    intro c hbp
    obtain ⟨bp, q, un, buf, ro⟩ := c
    simp only at hbp
    subst hbp
    cases q with
    | nil =>
      refine ⟨?_, ?_⟩
      · intro habs
        simp [drainGo] at habs
      · intro _ _
        simp [drainGo]
    | cons item rest =>
      have key : ∀ (un2 : List (Nat × UnackedMessage)) (buf2 : Nat),
          ((drainGo t fuel (setBpIfHigh ⟨false, rest, un2, buf2, ro⟩)).1.backpressure
              = true →
            BUFFER_HIGH_WATERMARK <
              (drainGo t fuel (setBpIfHigh ⟨false, rest, un2, buf2, ro⟩)).1.buffered) ∧
          ((drainGo t fuel (setBpIfHigh ⟨false, rest, un2, buf2, ro⟩)).1.backpressure
              = false →
            rest.length ≤ fuel →
            (drainGo t fuel (setBpIfHigh ⟨false, rest, un2, buf2, ro⟩)).1.pendingQueue
              = []) := by
        intro un2 buf2
        by_cases hh : BUFFER_HIGH_WATERMARK < buf2
        · have hgo : drainGo t fuel (setBpIfHigh ⟨false, rest, un2, buf2, ro⟩) =
              ((⟨true, rest, un2, buf2, ro⟩ : Conn), []) := by
            rw [setBpIfHigh_of_high _ hh]
            exact drainGo_of_backpressure t fuel _ rfl
          rw [hgo]
          exact ⟨fun _ => hh, fun habs _ => absurd habs (by simp)⟩
        · rw [setBpIfHigh_of_low _ hh]
          have hi := ih ⟨false, rest, un2, buf2, ro⟩ rfl
          exact ⟨hi.1, fun hbp2 hlen => hi.2 hbp2 hlen⟩
      cases hl : lookupUnacked item.1 un with
      | none =>
        simp only [drainGo, hl, Bool.false_eq_true, if_false]
        refine ⟨(key un buf).1, ?_⟩
        intro h1 hlen
        simp only [List.length_cons] at hlen
        exact (key un buf).2 h1 (Nat.le_of_succ_le_succ hlen)
      | some entry =>
        cases hws : entry.wasSent with
        | true =>
          simp only [drainGo, hl, hws, Bool.false_eq_true, if_false, if_true]
          refine ⟨(key un buf).1, ?_⟩
          intro h1 hlen
          simp only [List.length_cons] at hlen
          exact (key un buf).2 h1 (Nat.le_of_succ_le_succ hlen)
        | false =>
          simp only [drainGo, hl, hws, Bool.false_eq_true, if_false]
          refine ⟨?_, ?_⟩
          · exact (key (updateUnacked item.1
              { entry with wasSent := true, lastSentAt := t } un)
              (buf + item.2.length)).1
          · intro h1 hlen
            simp only [List.length_cons] at hlen
            exact (key (updateUnacked item.1
              { entry with wasSent := true, lastSentAt := t } un)
              (buf + item.2.length)).2 h1 (Nat.le_of_succ_le_succ hlen)

end WS

open WS in
/-- C5: backpressure hysteresis.  (1) With the flag off, buffered bytes
strictly over the high watermark set the flag.  (2) With the flag on,
buffered bytes at or above the low watermark (including exactly the high
watermark) leave the flag set and drain nothing.  (3) A new reliable payload
on a backpressured connection is queued — appended to the pending queue —
and not transmitted.  (4) A retry-ticker pass over a backpressured
connection transmits nothing and leaves the flag set, so retried payloads
are queued, not sent.  (5) Only dropping below the low watermark clears the
flag and immediately drains the pending queue.  (6) The drain serves the
queue strictly front-first: it consumes a prefix, its sends are an in-order
sublist of that prefix, and because the watermark is rechecked after every
item, the drain either empties the queue with the flag clear or stops with
the flag set and buffered bytes over the high watermark. -/
theorem backpressure_hysteresis :
    (∀ (t : Nat) (c : Conn), c.backpressure = false →
        BUFFER_HIGH_WATERMARK < c.buffered →
        checkBackpressure t c = ({ c with backpressure := true }, true, [])) ∧
    (∀ (t : Nat) (c : Conn), c.backpressure = true →
        BUFFER_LOW_WATERMARK ≤ c.buffered →
        checkBackpressure t c = (c, true, [])) ∧
    (∀ (t ackId : Nat) (p : String) (c : Conn), c.readyOpen = true →
        c.backpressure = true → BUFFER_LOW_WATERMARK ≤ c.buffered →
        sendReliable t ackId p c =
          ({ c with
              unacked := c.unacked ++ [(ackId, newEntry t p)],
              pendingQueue := c.pendingQueue ++ [(ackId, p)] }, [])) ∧
    (∀ (t : Nat) (c : Conn), c.backpressure = true →
        BUFFER_LOW_WATERMARK ≤ c.buffered →
        (retryTickConn t c).2 = [] ∧ (retryTickConn t c).1.backpressure = true) ∧
    (∀ (t : Nat) (c : Conn), c.backpressure = true →
        c.buffered < BUFFER_LOW_WATERMARK →
        checkBackpressure t c =
          ((drainPendingQueue t { c with backpressure := false }).1,
            (drainPendingQueue t { c with backpressure := false }).1.backpressure,
            (drainPendingQueue t { c with backpressure := false }).2)) ∧
    (∀ (t : Nat) (c : Conn), c.backpressure = false → c.readyOpen = true →
        (∃ k, (drainPendingQueue t c).1.pendingQueue = c.pendingQueue.drop k ∧
          List.Sublist ((drainPendingQueue t c).2) (c.pendingQueue.take k)) ∧
        ((drainPendingQueue t c).1.backpressure = true →
          BUFFER_HIGH_WATERMARK < (drainPendingQueue t c).1.buffered) ∧
        ((drainPendingQueue t c).1.backpressure = false →
          (drainPendingQueue t c).1.pendingQueue = [])) := by
  refine ⟨?_, ?_, ?_, ?_, ?_, ?_⟩
  · intro t c hbp hhigh
    exact checkBackpressure_set t c hbp hhigh
  · intro t c hbp hlow
    exact checkBackpressure_hold t c hbp hlow
  · intro t ackId p c hro hbp hlow
    exact sendReliable_queued t ackId p c hro hbp hlow
  · intro t c hbp hlow
    have h := retryTickConn_backpressured t c hbp hlow
    exact ⟨h.1, h.2.1⟩
  · intro t c hbp hlow
    exact checkBackpressure_release t c hbp hlow
  · intro t c hbp hro
    have hdq : drainPendingQueue t c = drainGo t c.pendingQueue.length c := by
      unfold drainPendingQueue
      rw [if_pos hro]
    rw [hdq]
    have hw := drainGo_watermark t c.pendingQueue.length c hbp
    exact ⟨drainGo_fifo t c.pendingQueue.length c,
      hw.1, fun h1 => hw.2 h1 (le_refl _)⟩

open WS in
/-- Witness for C5: one byte over the high watermark sets the flag; with
the flag set and the buffer drained to exactly the high watermark (still at
or above the low watermark), the flag stays set and nothing is sent. -/
theorem backpressure_hysteresis_witness :
    checkBackpressure 0 wHighConnC5 =
      ({ wHighConnC5 with backpressure := true }, true, []) ∧
    checkBackpressure 0 wBpConnC5 = (wBpConnC5, true, []) :=
  ⟨backpressure_hysteresis.1 0 wHighConnC5 rfl (by norm_num [BUFFER_HIGH_WATERMARK, wHighConnC5]),
    backpressure_hysteresis.2.1 0 wBpConnC5 rfl
      (by norm_num [BUFFER_LOW_WATERMARK, BUFFER_HIGH_WATERMARK, wBpConnC5])⟩
